import Mathlib

/-!
Verification development for the stock-prediction forecasting pipeline
(`app/services/data_service.py`, `app/services/model_service.py`,
`app/utils/feature_engineering.py`).

Tables are modelled column-name list + row list, each row a timestamp
(rationals stand in for datetime values, which are linearly ordered) and a
list of cells.  A cell is `Option ℚ`: `none` models a missing value (NaN in
pandas).  Forecast/actual arrays are lists of `FVal`, which distinguishes
finite values, NaN, and the two infinities as `numpy.float64` does.
-/

namespace StockPred

instance {ε α : Type} [DecidableEq ε] [DecidableEq α] : DecidableEq (Except ε α) :=
  fun x y =>
    match x, y with
    | .ok a, .ok b => if h : a = b then .isTrue (by rw [h]) else .isFalse (by simp [h])
    | .error a, .error b => if h : a = b then .isTrue (by rw [h]) else .isFalse (by simp [h])
    | .ok _, .error _ => .isFalse (by simp)
    | .error _, .ok _ => .isFalse (by simp)

/-- Python `int()` on a rational: truncation toward zero. -/
def pyInt (x : ℚ) : ℤ := if 0 ≤ x then ⌊x⌋ else -⌊-x⌋

/-- Python/pandas positional indexing `l[i]` with negative-index support:
`l[i]` is `l[len+i]` for `-len ≤ i < 0`, and an `IndexError` (here `none`)
out of range. -/
def pyIndexGet (l : List ℚ) (i : ℤ) : Option ℚ :=
  if 0 ≤ i then l[i.toNat]?
  else if (-i).toNat ≤ l.length then l[l.length - (-i).toNat]?
  else none

/-- Python slice `l[:k]` (clamping, negative-index semantics). -/
def pySliceTo {α : Type} (k : ℤ) (l : List α) : List α :=
  if 0 ≤ k then l.take k.toNat else l.take (l.length - min (-k).toNat l.length)

/-- Python slice `l[k:]` (clamping, negative-index semantics). -/
def pySliceFrom {α : Type} (k : ℤ) (l : List α) : List α :=
  if 0 ≤ k then l.drop k.toNat else l.drop (l.length - min (-k).toNat l.length)

/-- `numpy.mean` over a list of rationals. -/
def meanQ (l : List ℚ) : ℚ := l.sum / l.length

/-- A table: column names, rows of (timestamp, cells), and whether the
index is a `pd.DatetimeIndex`.  A cell of `none` is a NaN. -/
structure DataFrame where
  colNames : List String
  rows : List (ℚ × List (Option ℚ))
  isDatetimeIndex : Bool
deriving Repr, DecidableEq

/-- Well-formedness: each row has one cell per column. -/
def DataFrame.WF (df : DataFrame) : Prop :=
  ∀ r ∈ df.rows, r.2.length = df.colNames.length

instance (df : DataFrame) : Decidable df.WF := by
  unfold DataFrame.WF; infer_instance

/-- `col in df.columns`. -/
def DataFrame.hasCol (df : DataFrame) (c : String) : Bool :=
  df.colNames.contains c

/-- Position of a column name in the column list (pandas column lookup). -/
def colIdx (c : String) : List String → Option ℕ
  | [] => none
  | n :: ns => if n = c then some 0 else (colIdx c ns).map (· + 1)

/-- `df[c]` as a list of cells, `none` if the column is absent. -/
def DataFrame.getCol (df : DataFrame) (c : String) : Option (List (Option ℚ)) :=
  (colIdx c df.colNames).map fun j => df.rows.map fun r => r.2.getD j none

/-- `df[c]`, defaulting to `[]` when absent (callers below only use it on
columns whose presence the code has already checked). -/
def getColD (df : DataFrame) (c : String) : List (Option ℚ) :=
  (df.getCol c).getD []

/-- `df[name] = vals`: replace the column in place if the name exists,
append it otherwise (pandas column assignment). -/
def DataFrame.setCol (df : DataFrame) (c : String) (vals : List (Option ℚ)) : DataFrame :=
  match colIdx c df.colNames with
  | some j =>
      { df with rows := (df.rows.zip vals).map fun rv => (rv.1.1, rv.1.2.set j rv.2) }
  | none =>
      { df with colNames := df.colNames ++ [c],
                rows := (df.rows.zip vals).map fun rv => (rv.1.1, rv.1.2 ++ [rv.2]) }

/-- Boolean row filter on the index (`df[df.index < t]` and the like). -/
def DataFrame.filterRows (df : DataFrame) (p : ℚ → Bool) : DataFrame :=
  { df with rows := df.rows.filter fun r => p r.1 }

/-- A row is complete when no cell is NaN. -/
def rowComplete (r : ℚ × List (Option ℚ)) : Bool := r.2.all (·.isSome)

/-- `df.dropna()`: drop every row holding at least one NaN. -/
def DataFrame.dropna (df : DataFrame) : DataFrame :=
  { df with rows := df.rows.filter rowComplete }

/-- `DataService.split_data` (`app/services/data_service.py`, lines 100-123).
The date-based path picks the timestamp at position `int(len * ratio)` and
partitions rows by comparison with it; the fallback slices positionally.
The source performs no ratio validation; an out-of-range cut position on the
date path is a pandas `IndexError`, modelled as `.error`. -/
def split_data (df : DataFrame) (ratio : ℚ) (method : String) :
    Except String (DataFrame × DataFrame) :=
  let n := df.rows.length
  let split_index : ℤ := pyInt ((n : ℚ) * ratio)
  if method == "date_based" && df.isDatetimeIndex then
    match pyIndexGet (df.rows.map (·.1)) split_index with
    | none => .error "index out of bounds"
    | some split_date =>
        .ok (df.filterRows fun t => decide (t < split_date),
             df.filterRows fun t => decide (split_date ≤ t))
  else
    .ok ({ df with rows := pySliceTo split_index df.rows },
         { df with rows := pySliceFrom split_index df.rows })

/-! ## Rolling feature generation
(`app/utils/feature_engineering.py`, `FeatureEngineer.generate_rolling_features`,
lines 20-80). -/

/-- `pandas` rolling mean over a full window of finite values. -/
def aggMean (l : List ℚ) : Option ℚ := if l = [] then none else some (meanQ l)

/-- `pandas` rolling sample standard deviation (ddof = 1).  The standard
deviation itself is the square root of this value, which is irrational in
general; since the square root is injective on nonnegative values and NaN
goes to NaN, the column is modelled by the sample variance.  A window of
fewer than two observations yields NaN. -/
def aggStd (l : List ℚ) : Option ℚ :=
  if 2 ≤ l.length then
    some ((l.map fun x => (x - meanQ l) ^ 2).sum / ((l.length : ℚ) - 1))
  else none

/-- `pandas` rolling minimum over a full window. -/
def aggMin (l : List ℚ) : Option ℚ :=
  match l with
  | [] => none
  | x :: xs => some (xs.foldl min x)

/-- `pandas` rolling maximum over a full window. -/
def aggMax (l : List ℚ) : Option ℚ :=
  match l with
  | [] => none
  | x :: xs => some (xs.foldl max x)

/-- The `if/elif` dispatch on the operation string (lines 52-67): the four
recognized operations and their aggregates; anything else is skipped. -/
def opAgg : String → Option (List ℚ → Option ℚ)
  | "mean" => some aggMean
  | "std" => some aggStd
  | "min" => some aggMin
  | "max" => some aggMax
  | _ => none

/-- Generated feature name `f"{col}_rolling_{operation}_{window}"`. -/
def featName (c operation : String) (w : ℕ) : String :=
  c ++ "_rolling_" ++ operation ++ "_" ++ toString w

/-- Collect the values of an all-finite list of cells; `none` if any cell
is NaN. -/
def allSome : List (Option ℚ) → Option (List ℚ)
  | [] => some []
  | none :: _ => none
  | some x :: rest => (allSome rest).map (x :: ·)

/-- The trailing window ending at row `i`: rows `i-w+1 … i`, defined only
when the window is full and holds no NaN (pandas `min_periods` defaults to
the window size). -/
def windowAt (xs : List (Option ℚ)) (w i : ℕ) : Option (List ℚ) :=
  if w ≤ i + 1 then allSome ((xs.drop (i + 1 - w)).take w) else none

/-- `series.rolling(window=w).agg()`: entry `i` aggregates the trailing
window of size `w` ending at row `i`. -/
def rollingCol (agg : List ℚ → Option ℚ) (w : ℕ) (xs : List (Option ℚ)) :
    List (Option ℚ) :=
  (List.range xs.length).map fun i => (windowAt xs w i).bind agg

/-- The aggregate of a recognized operation (callers establish
recognition; the default is never hit then). -/
def aggOf (o : String) : List ℚ → Option ℚ := (opAgg o).getD fun _ => none

/-- The feature names generated by the inner operation loop, in order. -/
def opsNames (c : String) (w : ℕ) (ops : List String) : List String :=
  ops.map fun o => featName c o w

/-- The feature names generated for one source column, in loop order
(middle loop over windows, inner loop over operations). -/
def winNames (c : String) (windows : List ℕ) (ops : List String) : List String :=
  windows.flatMap fun w => opsNames c w ops

/-- The feature names of a whole call, in loop order (outer loop over
columns, middle loop over windows, inner loop over operations). -/
def featNames (columns : List String) (windows : List ℕ) (ops : List String) :
    List String :=
  columns.flatMap fun c => winNames c windows ops

/-- One iteration of the innermost loop (lines 51-67): if the operation is
recognized, assign the rolling column and record its name; otherwise do
nothing (no `else` branch in the source). -/
def addOpFeature (df : DataFrame) (c : String) (w : ℕ) (operation : String) :
    DataFrame × List String :=
  match opAgg operation with
  | some agg =>
      (df.setCol (featName c operation w) (rollingCol agg w (getColD df c)),
       [featName c operation w])
  | none => (df, [])

/-- The loop over operations for one column and window. -/
def addOps (df : DataFrame) (c : String) (w : ℕ) :
    List String → DataFrame × List String
  | [] => (df, [])
  | o :: os =>
      let r1 := addOpFeature df c w o
      let r2 := addOps r1.1 c w os
      (r2.1, r1.2 ++ r2.2)

/-- The loop over windows for one column. -/
def addWindows (df : DataFrame) (c : String) (ops : List String) :
    List ℕ → DataFrame × List String
  | [] => (df, [])
  | w :: ws =>
      let r1 := addOps df c w ops
      let r2 := addWindows r1.1 c ops ws
      (r2.1, r1.2 ++ r2.2)

/-- The outer loop over source columns (lines 45-67).  A column absent from
the current frame is skipped with a recorded warning (modelled as the
missing column's name); the presence test is against the frame as already
augmented by earlier iterations, as in the source. -/
def addCols (df : DataFrame) (windows : List ℕ) (ops : List String) :
    List String → DataFrame × List String × List String
  | [] => (df, [], [])
  | c :: cs =>
      if df.hasCol c then
        let r1 := addWindows df c ops windows
        let r2 := addCols r1.1 windows ops cs
        (r2.1, r1.2 ++ r2.2.1, r2.2.2)
      else
        let r2 := addCols df windows ops cs
        (r2.1, r2.2.1, c :: r2.2.2)

/-- `FeatureEngineer.generate_rolling_features`: run the three nested loops
on a copy of the input, then `dropna` the augmented frame.  Returns the
final frame, the ordered generated feature names, and the warnings (names
of skipped columns).  The source defaults `operations` to
`["mean", "std"]` when it is `None`; callers here pass the list
explicitly. -/
def generate_rolling_features (df : DataFrame) (columns : List String)
    (windows : List ℕ) (operations : List String) :
    DataFrame × List String × List String :=
  let r := addCols df windows operations columns
  (r.1.dropna, r.2.1, r.2.2)

/-! ## Model service (`app/services/model_service.py`). -/

/-- A `numpy.float64` value: finite, NaN, or a signed infinity. -/
inductive FVal
  | num (q : ℚ)
  | nan
  | inf
  | ninf
deriving Repr, DecidableEq

/-- `np.isfinite`. -/
def FVal.isFinite : FVal → Bool
  | .num _ => true
  | _ => false

/-- `np.isnan`. -/
def FVal.isNaN : FVal → Bool
  | .nan => true
  | _ => false

/-- `np.isinf` (either sign). -/
def FVal.isInf : FVal → Bool
  | .inf => true
  | .ninf => true
  | _ => false

/-- The rational value of a finite `FVal`. -/
def FVal.toQ : FVal → Option ℚ
  | .num q => some q
  | _ => none

/-- The rational value of an `FVal`, defaulting to 0 (applied only after
finiteness filtering). -/
def FVal.toQD (v : FVal) : ℚ := v.toQ.getD 0

/-- A table cell read into a float array: NaN cells become NaN floats. -/
def ofCell : Option ℚ → FVal
  | some q => .num q
  | none => .nan

/-- The result of `pmdarima.auto_arima`: the discovered order and the
information-criterion value (the fields the service reads). -/
structure FittedModel where
  order : ℕ × ℕ × ℕ
  aic : ℚ
deriving Repr, DecidableEq

/-- The `model_info` dictionary built by `train_arima` (lines 76-89),
restricted to its data fields (the free-text summary is omitted). -/
structure ModelInfo where
  parameters : ℕ × ℕ × ℕ
  aic : Option ℚ
  training_rows : ℕ
  testing_rows : ℕ
  features_used : List String
  target_column : String
deriving Repr, DecidableEq

/-- The mutable session state of `ModelService` (constructor, lines 19-26).
`model_info` starts as the empty dict, modelled as `none`. -/
structure ModelState where
  model : Option FittedModel
  model_info : Option ModelInfo
  training_data : Option DataFrame
  testing_data : Option DataFrame
  predictions : Option (List FVal)
  actual_values : Option (List FVal)
deriving Repr, DecidableEq

/-- The fresh session state. -/
def initState : ModelState := ⟨none, none, none, none, none, none⟩

/-- Errors raised by `train_arima`.  The source raises `ValueError`s; the
constructors record the same data the messages carry. -/
inductive TrainErr
  | targetNotFound (c : String)
  | featuresNotFound (cs : List String)
  | fitFailed (msg : String)
deriving Repr, DecidableEq

/-- The column names a `train_arima` error message lists. -/
def TrainErr.namedColumns : TrainErr → List String
  | .targetNotFound c => [c]
  | .featuresNotFound cs => cs
  | .fitFailed _ => []

/-- `ModelService.train_arima` (lines 28-97).  The external
`pmdarima.auto_arima` call is a parameter `fit` taking the target series
and the optional exogenous feature columns.  An exception leaves the
session state unchanged; success returns the updated state together with
the returned `model_info`.  Validation order as in the source: the target
column is checked first (line 40) and raises naming only itself; then every
missing feature column is collected and raised together (lines 44-46).
State fields are assigned only after a successful fit (lines 69-89). -/
def train_arima
    (fit : List (Option ℚ) → Option (List (List (Option ℚ))) → Except String FittedModel)
    (st : ModelState) (training : DataFrame) (target : String)
    (features : List String) (test : Option DataFrame) :
    Except TrainErr (ModelState × ModelInfo) :=
  if training.hasCol target = false then .error (.targetNotFound target)
  else
    let missing := features.filter fun f => !training.hasCol f
    if missing ≠ [] then .error (.featuresNotFound missing)
    else
      let y := getColD training target
      let X := if features ≠ [] then some (features.map (getColD training)) else none
      match fit y X with
      | .error m => .error (.fitFailed m)
      | .ok model =>
          let info : ModelInfo :=
            { parameters := model.order
              aic := some model.aic
              training_rows := training.rows.length
              testing_rows := (test.map (·.rows.length)).getD 0
              features_used := features
              target_column := target }
          .ok ({ st with model := some model, model_info := some info,
                         training_data := some training, testing_data := test },
               info)

/-- The session state after a `train_arima` call: unchanged when the call
raised. -/
def afterTrain (st : ModelState) (r : Except TrainErr (ModelState × ModelInfo)) :
    ModelState :=
  match r with
  | .ok p => p.1
  | .error _ => st

/-- Errors raised by `ModelService.predict`. -/
inductive PredictErr
  | noModel
  | noPeriods
  | keyNotFound (k : String)
  | noTrainingData
  | emptyTrainingIndex
deriving Repr, DecidableEq

/-- The dictionary returned by `predict` (lines 167-172). -/
structure PredictResult where
  values : List FVal
  dates : List ℚ
  actual : Option (List FVal)
  n_periods : ℕ
deriving Repr, DecidableEq

/-- `ModelService.predict` (lines 110-176), with the caller's `X` argument
left `None` as at the call site in `app/api/routes.py`.  The fitted model's
forecast is the oracle `mpredict`; its output array may hold NaN.  Steps,
in source order: require a model; resolve `n_periods` from the argument or
the testing partition; extract the exogenous feature columns from the
testing partition (a missing feature column is a `KeyError`; the extracted
table is only passed to the external model, so it is not retained here);
forecast; build dates and the actual series from the testing partition when
present (a missing `target_column` key or column is a `KeyError`), or
synthesize consecutive daily dates (+1 apiece) after the last training
timestamp otherwise; store the forecast; store the actual series only when
it is a truthy (non-empty) list — `if actual:` on line 164. -/
def predict (mpredict : ℕ → List FVal) (st : ModelState) (nper : Option ℕ) :
    Except PredictErr (ModelState × PredictResult) :=
  if st.model.isNone then .error .noModel
  else
    let nres : Option ℕ :=
      match nper, st.testing_data with
      | some n, _ => some n
      | none, some td => some td.rows.length
      | none, none => none
    match nres with
    | none => .error .noPeriods
    | some n =>
      let feats := (st.model_info.map (·.features_used)).getD []
      match st.testing_data with
      | some td =>
        if feats ≠ [] && feats.any (fun f => !td.hasCol f) then
          .error (.keyNotFound "features")
        else
          let forecast := mpredict n
          match st.model_info with
          | none => .error (.keyNotFound "target_column")
          | some mi =>
            match td.getCol mi.target_column with
            | none => .error (.keyNotFound mi.target_column)
            | some colv =>
              let dates := (td.rows.map (·.1)).take n
              let actual : List FVal := (colv.take n).map ofCell
              .ok ({ st with predictions := some forecast,
                             actual_values :=
                               if actual ≠ [] then some actual else st.actual_values },
                   ⟨forecast, dates, some actual, n⟩)
      | none =>
        let forecast := mpredict n
        match st.training_data with
        | none => .error .noTrainingData
        | some tr =>
          match tr.rows.getLast? with
          | none => .error .emptyTrainingIndex
          | some lastRow =>
            let dates := (List.range n).map fun i => lastRow.1 + (i + 1 : ℕ)
            .ok ({ st with predictions := some forecast },
                 ⟨forecast, dates, none, n⟩)

/-! ## Metrics (`ModelService.calculate_metrics`, lines 178-287). -/

/-- numpy boolean-mask indexing `arr[mask]`. -/
def maskFilter {α : Type} : List Bool → List α → List α
  | b :: bs, x :: xs => if b then x :: maskFilter bs xs else maskFilter bs xs
  | _, _ => []

/-- Errors raised by `calculate_metrics` (all `ValueError`s in the source).
`noValidData` carries the counts interpolated into the diagnostic message
(lines 233-238): total length, NaN count and infinity count per array. -/
inductive MetricsErr
  | noPredictions
  | noData
  | noValidData (total nanPred nanActual infPred infActual : ℕ)
deriving Repr, DecidableEq

/-- The metrics dictionary (lines 277-283).  The source computes
`rmse = np.sqrt(mse)`, irrational in general, so the field carries its
square; `rmseSq = mse` holds by construction, exactly as in the source. -/
structure Metrics where
  mse : ℚ
  rmseSq : ℚ
  mae : ℚ
  mape : Option ℚ
  directional_accuracy : Option ℚ
deriving Repr, DecidableEq

/-- The body of `calculate_metrics` on the two extracted arrays
(lines 202-287): truncate to the common length, build the finiteness mask,
fail with the diagnostic counts when nothing is valid, else compute MSE,
RMSE, MAE, MAPE over `|actual| > 1e-10` positions, and directional accuracy
from `np.diff(...) > 0` agreement. -/
def calcMetricsValues (preds acts : List FVal) : Except MetricsErr Metrics :=
  let min_len := min preds.length acts.length
  let pv := preds.take min_len
  let av := acts.take min_len
  if min_len = 0 then .error .noData
  else
    let valid_mask : List Bool := List.zipWith (fun p a => p.isFinite && a.isFinite) pv av
    if valid_mask.all (· = false) then
      .error (.noValidData min_len (pv.countP FVal.isNaN) (av.countP FVal.isNaN)
        (pv.countP FVal.isInf) (av.countP FVal.isInf))
    else
      let pred_clean := (maskFilter valid_mask pv).map FVal.toQD
      let actual_clean := (maskFilter valid_mask av).map FVal.toQD
      let errs := List.zipWith (fun a p => a - p) actual_clean pred_clean
      let mse := meanQ (errs.map (· ^ 2))
      let mae := meanQ (errs.map (|·|))
      let nzPairs := (actual_clean.zip pred_clean).filter fun ap =>
        decide ((1 : ℚ) / 10 ^ 10 < |ap.1|)
      let mape : Option ℚ :=
        if nzPairs ≠ [] then
          some (meanQ (nzPairs.map fun ap => |(ap.1 - ap.2) / ap.1|) * 100)
        else none
      let da : Option ℚ :=
        if 1 < actual_clean.length then
          let adir := (actual_clean.zip actual_clean.tail).map fun xy => decide (xy.1 < xy.2)
          let pdir := (pred_clean.zip pred_clean.tail).map fun xy => decide (xy.1 < xy.2)
          some (meanQ (List.zipWith (fun x y => if x = y then (1 : ℚ) else 0) adir pdir) * 100)
        else none
      .ok { mse := mse, rmseSq := mse, mae := mae, mape := mape,
            directional_accuracy := da }

/-- `ModelService.calculate_metrics`: requires both stored series
(lines 182-183), then computes on the extracted arrays. -/
def calculate_metrics (st : ModelState) : Except MetricsErr Metrics :=
  match st.predictions, st.actual_values with
  | some p, some a => calcMetricsValues p a
  | _, _ => .error .noPredictions

/-! ## Derived views used to state the metric theorems. -/

/-- The valid (both-finite) value pairs of two truncated arrays, as
(pred, actual) rationals, in order. -/
def clean2 (pv av : List FVal) : List (ℚ × ℚ) :=
  (pv.zip av).filterMap fun pa =>
    match pa.1.toQ, pa.2.toQ with
    | some p, some a => some (p, a)
    | _, _ => none

/-- The valid pairs of a forecast/actual pair after positional truncation
to the common length. -/
def cleanPairs (preds acts : List FVal) : List (ℚ × ℚ) :=
  clean2 (preds.take (min preds.length acts.length))
    (acts.take (min preds.length acts.length))

/-- The surviving predicted values. -/
def cleanPred (preds acts : List FVal) : List ℚ := (cleanPairs preds acts).map (·.1)

/-- The surviving actual values. -/
def cleanActual (preds acts : List FVal) : List ℚ := (cleanPairs preds acts).map (·.2)

/-- The boolean up-move sequence of a series: entry `i` is whether
`l[i+1] > l[i]` (`np.diff(l) > 0`). -/
def upMoves (l : List ℚ) : List Bool :=
  (l.zip l.tail).map fun xy => decide (xy.1 < xy.2)

/-- The fraction of agreeing positions of two boolean lists (`np.mean` of
elementwise equality). -/
def agreeFrac (a b : List Bool) : ℚ :=
  meanQ (List.zipWith (fun x y => if x = y then (1 : ℚ) else 0) a b)

/-- Modelled from the spec: three-valued `sign`, as in the claim
"sign(actual[i+1]-actual[i]) equals sign(pred[i+1]-pred[i])". -/
def specSign (x : ℚ) : ℚ := if 0 < x then 1 else if x < 0 then -1 else 0

/-- Modelled from the spec: directional accuracy as the claim states it,
the percentage of consecutive-pair positions whose three-valued signs of
change agree, undefined below two observations. -/
def specDirAcc (actual pred : List ℚ) : Option ℚ :=
  if 1 < actual.length then
    some (meanQ (List.zipWith (fun x y => if x = y then (1 : ℚ) else 0)
      ((actual.zip actual.tail).map fun xy => specSign (xy.2 - xy.1))
      ((pred.zip pred.tail).map fun xy => specSign (xy.2 - xy.1))) * 100)
  else none

/-! ## Concrete instances used by witnesses and counterexamples. -/

/-- An empty table carrying a (vacuously) datetime index, as produced by
loading a header-only CSV. -/
def emptyDTF : DataFrame := ⟨["Close"], [], true⟩

/-- A two-row date-indexed table. -/
def twoRowDF : DataFrame := ⟨["Close"], [(0, [some 10]), (1, [some 11])], true⟩

/-- A four-row date-indexed table. -/
def dfA : DataFrame :=
  ⟨["Close"], [(0, [some 1]), (1, [some 2]), (2, [some 3]), (3, [some 4])], true⟩

/-- Predicted series `[1, 3, 0, 4]` from the spec's directional-accuracy
example. -/
def P5 : List FVal := [.num 1, .num 3, .num 0, .num 4]

/-- Actual series `[1, 2, 1, 3]` from the spec's directional-accuracy
example. -/
def A5 : List FVal := [.num 1, .num 2, .num 1, .num 3]

/-- A session holding forecast `[2, 1]` against actual `[1, 1]`: the actual
change is flat, the predicted change is a decrease. -/
def stC5 : ModelState :=
  { initState with predictions := some [.num 2, .num 1],
                   actual_values := some [.num 1, .num 1] }

/-- Forecast `[1, 2]` against actual `[1, NaN]`: one non-finite actual. -/
def P7 : List FVal := [.num 1, .num 2]

/-- Actual series with a NaN at position 1. -/
def A7 : List FVal := [.num 1, .nan]

/-- Forecast `[1]` against an all-zero actual series. -/
def P6 : List FVal := [.num 1]

/-- All-zero actual series: MAPE has no position with `|actual| > 1e-10`. -/
def A6 : List FVal := [.num 0]

/-- A fit oracle standing in for `pmdarima.auto_arima` (never reached on
the validation-failure paths). -/
def dummyFit : List (Option ℚ) → Option (List (List (Option ℚ))) → Except String FittedModel :=
  fun _ _ => .ok ⟨(0, 0, 0), 0⟩

/-- A one-row training table whose last timestamp is 10. -/
def trainDF8 : DataFrame := ⟨["Close"], [(10, [some 5])], true⟩

/-- A two-row testing table with `Close` values 6 and 7. -/
def testDF8 : DataFrame := ⟨["Close"], [(20, [some 6]), (21, [some 7])], true⟩

/-- Model info for a session fitted on `Close` with no exogenous features. -/
def info8 : ModelInfo := ⟨(1, 0, 0), some 5, 1, 0, [], "Close"⟩

/-- A session with a live model, NO testing partition, and a stale
forecast/actual pair from an earlier predict call. -/
def st8 : ModelState :=
  ⟨some ⟨(1, 0, 0), 5⟩, some info8, some trainDF8, none, some [.num 9], some [.num 7]⟩

/-- The session after predicting 2 periods on `st8`: the forecast is
replaced but the stale actual series survives. -/
def st8After : ModelState := { st8 with predictions := some [.num 3, .num 3] }

/-- A session like `st8` but with a testing partition present. -/
def st8b : ModelState :=
  ⟨some ⟨(1, 0, 0), 5⟩, some info8, some trainDF8, some testDF8,
   some [.num 9], some [.num 7]⟩

/-- The session after predicting 1 period on `st8b`. -/
def S8 : ModelState :=
  { st8b with predictions := some [.num 3], actual_values := some [.num 6] }

/-- The returned prediction payload for `predict` on `st8b`. -/
def R8 : PredictResult := ⟨[.num 3], [20], some [.num 6], 1⟩

/-- A model oracle forecasting the constant 3. -/
def mp8 : ℕ → List FVal := fun n => List.replicate n (.num 3)

/-! ## Theorems. -/

/-- The two comparison filters of the date-based split partition the rows. -/
theorem length_filter_lt_add_ge (l : List (ℚ × List (Option ℚ))) (c : ℚ) :
    (l.filter fun row => decide (row.1 < c)).length +
      (l.filter fun row => decide (c ≤ row.1)).length = l.length := by
  induction l with
  | nil => rfl
  | cons x xs ih =>
      simp only [List.filter_cons]
      rcases lt_or_le x.1 c with h | h
      · simp [h, not_le.mpr h]
        omega
      · simp [h, not_lt.mpr h]
        omega

/-- `int()` is `floor` on nonnegative arguments. -/
theorem pyInt_of_nonneg {x : ℚ} (h : 0 ≤ x) : pyInt x = ⌊x⌋ := by
  simp [pyInt, h]

/-- `split_data` on the date-based path, once the cut lookup succeeds. -/
theorem split_data_date (df : DataFrame) (r : ℚ) (hdt : df.isDatetimeIndex = true)
    (cut : ℚ)
    (hget : pyIndexGet (df.rows.map (·.1)) (pyInt ((df.rows.length : ℚ) * r)) = some cut) :
    split_data df r "date_based" =
      .ok (df.filterRows fun t => decide (t < cut),
           df.filterRows fun t => decide (cut ≤ t)) := by
  unfold split_data
  simp only [hdt, Bool.and_true, beq_self_eq_true, if_true, hget]

/-- `split_data` on the date-based path when the cut lookup fails. -/
theorem split_data_date_err (df : DataFrame) (r : ℚ) (hdt : df.isDatetimeIndex = true)
    (hget : pyIndexGet (df.rows.map (·.1)) (pyInt ((df.rows.length : ℚ) * r)) = none) :
    split_data df r "date_based" = .error "index out of bounds" := by
  unfold split_data
  simp only [hdt, Bool.and_true, beq_self_eq_true, if_true, hget]

/-- `split_data` on the positional fallback path. -/
theorem split_data_positional (df : DataFrame) (r : ℚ) (method : String)
    (h : (method == "date_based" && df.isDatetimeIndex) = false) :
    split_data df r method =
      .ok ({ df with rows := pySliceTo (pyInt ((df.rows.length : ℚ) * r)) df.rows },
           { df with rows := pySliceFrom (pyInt ((df.rows.length : ℚ) * r)) df.rows }) := by
  unfold split_data
  simp only [h, Bool.false_eq_true, if_false]

/-- C1 (amended: the table must be nonempty — the date-based path of
`split_data` raises an index error on an empty time-indexed table).  For
every nonempty loaded table and ratio `0 < r < 1`, `split_data` returns a
(training, testing) pair whose row counts sum to the original row count;
on a time index the cut is the timestamp at position `⌊n·r⌋`, training is
exactly the rows with timestamp strictly below it, testing exactly those at
or above it, so every training timestamp precedes every testing timestamp;
otherwise the split is positional slicing at `⌊n·r⌋`. -/
theorem C1_split_data_partition (df : DataFrame) (r : ℚ)
    (h1 : 0 < r) (h2 : r < 1) (hn : df.rows.length ≠ 0) :
    ∃ tr te, split_data df r "date_based" = .ok (tr, te) ∧
      tr.rows.length + te.rows.length = df.rows.length ∧
      (df.isDatetimeIndex = true →
        ∃ cut, pyIndexGet (df.rows.map (·.1)) ⌊(df.rows.length : ℚ) * r⌋ = some cut ∧
          tr.rows = df.rows.filter (fun row => decide (row.1 < cut)) ∧
          te.rows = df.rows.filter (fun row => decide (cut ≤ row.1)) ∧
          ∀ t ∈ tr.rows, ∀ u ∈ te.rows, t.1 < u.1) ∧
      (df.isDatetimeIndex = false →
        tr.rows = df.rows.take (⌊(df.rows.length : ℚ) * r⌋).toNat ∧
        te.rows = df.rows.drop (⌊(df.rows.length : ℚ) * r⌋).toNat) := by
  have hx : (0 : ℚ) ≤ (df.rows.length : ℚ) * r :=
    mul_nonneg (by positivity) h1.le
  have hpy : pyInt ((df.rows.length : ℚ) * r) = ⌊(df.rows.length : ℚ) * r⌋ :=
    pyInt_of_nonneg hx
  have hk0 : 0 ≤ ⌊(df.rows.length : ℚ) * r⌋ := Int.floor_nonneg.mpr hx
  have hnpos : (0 : ℚ) < (df.rows.length : ℚ) := by
    exact_mod_cast Nat.pos_of_ne_zero hn
  have hklt : ⌊(df.rows.length : ℚ) * r⌋ < (df.rows.length : ℤ) := by
    apply Int.floor_lt.mpr
    push_cast
    nlinarith
  have hkn : (⌊(df.rows.length : ℚ) * r⌋).toNat < df.rows.length := by omega
  cases hdt : df.isDatetimeIndex with
  | true =>
      have hkn' : (⌊(df.rows.length : ℚ) * r⌋).toNat < (df.rows.map (·.1)).length := by
        simpa using hkn
      obtain ⟨cut, hget⟩ : ∃ cut,
          pyIndexGet (df.rows.map (·.1)) (pyInt ((df.rows.length : ℚ) * r)) = some cut := by
        refine ⟨(df.rows.map (·.1))[(⌊(df.rows.length : ℚ) * r⌋).toNat], ?_⟩
        unfold pyIndexGet
        rw [hpy, if_pos hk0, List.getElem?_eq_getElem hkn']
      have hget' : pyIndexGet (df.rows.map (·.1)) ⌊(df.rows.length : ℚ) * r⌋ = some cut := by
        rw [← hpy]; exact hget
      refine ⟨_, _, split_data_date df r hdt _ hget, ?_, ?_, ?_⟩
      · exact length_filter_lt_add_ge df.rows _
      · intro _
        refine ⟨cut, hget', rfl, rfl, ?_⟩
        intro t ht u hu
        simp only [DataFrame.filterRows, List.mem_filter, decide_eq_true_eq] at ht hu
        exact lt_of_lt_of_le ht.2 hu.2
      · intro hfalse
        simp at hfalse
  | false =>
      have hcond : (("date_based" == "date_based") && df.isDatetimeIndex) = false := by
        simp [hdt]
      refine ⟨_, _, split_data_positional df r "date_based" hcond, ?_, ?_, ?_⟩
      · simp only [pySliceTo, pySliceFrom, hpy, if_pos hk0,
          List.length_take, List.length_drop]
        omega
      · intro htrue
        simp at htrue
      · intro _
        constructor
        · simp only [pySliceTo, hpy, if_pos hk0]
        · simp only [pySliceFrom, hpy, if_pos hk0]

/-- C1 witness: the general theorem applied to a concrete two-row table at
ratio one half. -/
theorem C1_witness :
    ∃ tr te, split_data twoRowDF (1 / 2) "date_based" = .ok (tr, te) ∧
      tr.rows.length + te.rows.length = twoRowDF.rows.length ∧
      (twoRowDF.isDatetimeIndex = true →
        ∃ cut, pyIndexGet (twoRowDF.rows.map (·.1))
            ⌊(twoRowDF.rows.length : ℚ) * (1 / 2)⌋ = some cut ∧
          tr.rows = twoRowDF.rows.filter (fun row => decide (row.1 < cut)) ∧
          te.rows = twoRowDF.rows.filter (fun row => decide (cut ≤ row.1)) ∧
          ∀ t ∈ tr.rows, ∀ u ∈ te.rows, t.1 < u.1) ∧
      (twoRowDF.isDatetimeIndex = false →
        tr.rows = twoRowDF.rows.take (⌊(twoRowDF.rows.length : ℚ) * (1 / 2)⌋).toNat ∧
        te.rows = twoRowDF.rows.drop (⌊(twoRowDF.rows.length : ℚ) * (1 / 2)⌋).toNat) :=
  C1_split_data_partition twoRowDF (1 / 2) (by norm_num) (by norm_num) (by decide)

/-- C1 counterexample to universality over all loaded tables: on the empty
time-indexed table (a loadable header-only CSV), the date-based path raises
an index error instead of returning a pair. -/
theorem C1_counterexample :
    split_data emptyDTF (1 / 2) "date_based" = .error "index out of bounds" := by
  apply split_data_date_err emptyDTF (1 / 2) rfl
  norm_num [pyIndexGet, pyInt, emptyDTF]

/-- Bounds on the cut index for a proper ratio on a nonempty table. -/
theorem cut_index_bounds (df : DataFrame) (r : ℚ)
    (h1 : 0 < r) (h2 : r < 1) (hn : df.rows.length ≠ 0) :
    pyInt ((df.rows.length : ℚ) * r) = ⌊(df.rows.length : ℚ) * r⌋ ∧
      0 ≤ ⌊(df.rows.length : ℚ) * r⌋ ∧
      (⌊(df.rows.length : ℚ) * r⌋).toNat < df.rows.length := by
  have hx : (0 : ℚ) ≤ (df.rows.length : ℚ) * r := mul_nonneg (by positivity) h1.le
  have hk0 : 0 ≤ ⌊(df.rows.length : ℚ) * r⌋ := Int.floor_nonneg.mpr hx
  have hnpos : (0 : ℚ) < (df.rows.length : ℚ) := by
    exact_mod_cast Nat.pos_of_ne_zero hn
  have hklt : ⌊(df.rows.length : ℚ) * r⌋ < (df.rows.length : ℤ) := by
    apply Int.floor_lt.mpr
    push_cast
    nlinarith
  exact ⟨pyInt_of_nonneg hx, hk0, by omega⟩

/-- C9 (amended): for every nonempty loaded table and ratio `0 < r < 1`,
the testing partition is non-empty, but the training partition is non-empty
only under the additional condition `⌊n·r⌋ ≥ 1` (plus, on the date-based
path, strict ascending order of the time index); with `⌊n·r⌋ = 0` training
comes out empty even though `r > 0`. -/
theorem C9_nonempty_partitions (df : DataFrame) (r : ℚ)
    (h1 : 0 < r) (h2 : r < 1) (hn : df.rows.length ≠ 0) :
    ∃ tr te, split_data df r "date_based" = .ok (tr, te) ∧ te.rows ≠ [] ∧
      (1 ≤ ⌊(df.rows.length : ℚ) * r⌋ →
        (df.isDatetimeIndex = false ∨ (df.rows.map (·.1)).Pairwise (· < ·)) →
        tr.rows ≠ []) := by
  obtain ⟨hpy, hk0, hkn⟩ := cut_index_bounds df r h1 h2 hn
  cases hdt : df.isDatetimeIndex with
  | true =>
      have hkn' : (⌊(df.rows.length : ℚ) * r⌋).toNat < (df.rows.map (·.1)).length := by
        simpa using hkn
      have hget : pyIndexGet (df.rows.map (·.1)) (pyInt ((df.rows.length : ℚ) * r)) =
          some ((df.rows.map (·.1)).get ⟨(⌊(df.rows.length : ℚ) * r⌋).toNat, hkn'⟩) := by
        unfold pyIndexGet
        rw [hpy, if_pos hk0, List.getElem?_eq_getElem hkn']
        rfl
      have hcut : (df.rows.map (·.1)).get ⟨(⌊(df.rows.length : ℚ) * r⌋).toNat, hkn'⟩ =
          (df.rows.get ⟨(⌊(df.rows.length : ℚ) * r⌋).toNat, hkn⟩).1 := by
        simp
      refine ⟨_, _, split_data_date df r hdt _ hget, ?_, ?_⟩
      · have hmem : df.rows.get ⟨(⌊(df.rows.length : ℚ) * r⌋).toNat, hkn⟩ ∈
            (df.filterRows fun t =>
              decide ((df.rows.map (·.1)).get ⟨(⌊(df.rows.length : ℚ) * r⌋).toNat, hkn'⟩ ≤ t)).rows := by
          simp only [DataFrame.filterRows, List.mem_filter, decide_eq_true_eq, hcut]
          exact ⟨List.get_mem _ _ _, le_refl _⟩
        exact List.ne_nil_of_mem hmem
      · rintro hk1 (hfalse | hsorted)
        · simp at hfalse
        · have h0n : 0 < (df.rows.map (·.1)).length := by simpa using Nat.pos_of_ne_zero hn
          have hlt : (df.rows.map (·.1)).get ⟨0, h0n⟩ <
              (df.rows.map (·.1)).get ⟨(⌊(df.rows.length : ℚ) * r⌋).toNat, hkn'⟩ :=
            List.pairwise_iff_get.mp hsorted ⟨0, h0n⟩ _ (by simpa using hk1)
          have hmem : df.rows.get ⟨0, Nat.pos_of_ne_zero hn⟩ ∈
              (df.filterRows fun t =>
                decide (t < (df.rows.map (·.1)).get ⟨(⌊(df.rows.length : ℚ) * r⌋).toNat, hkn'⟩)).rows := by
            simp only [DataFrame.filterRows, List.mem_filter, decide_eq_true_eq]
            refine ⟨List.get_mem _ _ _, ?_⟩
            simpa using hlt
          exact List.ne_nil_of_mem hmem
  | false =>
      have hcond : (("date_based" == "date_based") && df.isDatetimeIndex) = false := by
        simp [hdt]
      refine ⟨_, _, split_data_positional df r "date_based" hcond, ?_, ?_⟩
      · show pySliceFrom (pyInt ((df.rows.length : ℚ) * r)) df.rows ≠ []
        rw [hpy]
        unfold pySliceFrom
        rw [if_pos hk0]
        intro hcontra
        have hlen := congrArg List.length hcontra
        simp only [List.length_drop, List.length_nil] at hlen
        omega
      · rintro hk1 _
        show pySliceTo (pyInt ((df.rows.length : ℚ) * r)) df.rows ≠ []
        rw [hpy]
        unfold pySliceTo
        rw [if_pos hk0]
        intro hcontra
        have hlen := congrArg List.length hcontra
        simp only [List.length_take, List.length_nil] at hlen
        omega

/-- C9 counterexample: on a two-row, strictly increasing time index and
ratio `1/4` (which is in `(0,1)`), the cut index is `⌊2·(1/4)⌋ = 0`, the cut
timestamp is the first timestamp, and the returned training partition is
empty. -/
theorem C9_counterexample :
    split_data twoRowDF (1 / 4) "date_based" = .ok (⟨["Close"], [], true⟩, twoRowDF) := by
  have hget : pyIndexGet (twoRowDF.rows.map (·.1))
      (pyInt ((twoRowDF.rows.length : ℚ) * (1 / 4))) = some 0 := by
    have h2 : ((twoRowDF.rows.length : ℚ) * (1 / 4)) = 1 / 2 := by norm_num [twoRowDF]
    have h3 : pyInt ((1 : ℚ) / 2) = 0 := by norm_num [pyInt]
    rw [h2, h3]
    simp [twoRowDF, pyIndexGet]
  rw [split_data_date twoRowDF (1 / 4) rfl 0 hget]
  decide

/-- C9 witness: the amended theorem applied to a four-row table at ratio
one half, where both partitions come out non-empty. -/
theorem C9_witness :
    ∃ tr te, split_data dfA (1 / 2) "date_based" = .ok (tr, te) ∧ te.rows ≠ [] ∧
      (1 ≤ ⌊(dfA.rows.length : ℚ) * (1 / 2)⌋ →
        (dfA.isDatetimeIndex = false ∨ (dfA.rows.map (·.1)).Pairwise (· < ·)) →
        tr.rows ≠ []) :=
  C9_nonempty_partitions dfA (1 / 2) (by norm_num) (by norm_num) (by decide)

/-- For a ratio at least one, the cut index is at least the row count. -/
theorem cut_index_ge (df : DataFrame) (r : ℚ) (hr : 1 ≤ r) :
    0 ≤ pyInt ((df.rows.length : ℚ) * r) ∧
      (df.rows.length : ℤ) ≤ pyInt ((df.rows.length : ℚ) * r) := by
  have hx : (0 : ℚ) ≤ (df.rows.length : ℚ) * r :=
    mul_nonneg (Nat.cast_nonneg _) (zero_le_one.trans hr)
  rw [pyInt_of_nonneg hx]
  refine ⟨Int.floor_nonneg.mpr hx, Int.le_floor.mpr ?_⟩
  push_cast
  nlinarith [Nat.cast_nonneg (α := ℚ) df.rows.length]

/-- C3 (amended): `split_data` performs no ratio validation at all.  A
degenerate ratio `r = 0` still returns a (training, testing) pair; a ratio
`r ≥ 1` on the date-based time-index path fails with an index-bounds error
— not an `InvalidSplitRatio` condition — and on the positional path returns
the whole table as training with an empty testing partition. -/
theorem C3_no_ratio_validation (df : DataFrame) (hn : df.rows.length ≠ 0) :
    (∃ p, split_data df 0 "date_based" = .ok p) ∧
    (∀ r : ℚ, 1 ≤ r → df.isDatetimeIndex = true →
      split_data df r "date_based" = .error "index out of bounds") ∧
    (∀ r : ℚ, 1 ≤ r →
      split_data df r "positional" = .ok (df, { df with rows := [] })) := by
  refine ⟨?_, ?_, ?_⟩
  · have hz : pyInt ((df.rows.length : ℚ) * 0) = 0 := by norm_num [pyInt]
    cases hdt : df.isDatetimeIndex with
    | true =>
        have h0 : 0 < (df.rows.map (·.1)).length := by
          simpa using Nat.pos_of_ne_zero hn
        have hget : pyIndexGet (df.rows.map (·.1)) (pyInt ((df.rows.length : ℚ) * 0)) =
            some ((df.rows.map (·.1)).get ⟨0, h0⟩) := by
          rw [hz]
          unfold pyIndexGet
          rw [if_pos le_rfl]
          simp only [Int.toNat_zero]
          rw [List.getElem?_eq_getElem h0]
          simp [List.get_eq_getElem]
        exact ⟨_, split_data_date df 0 hdt _ hget⟩
    | false =>
        exact ⟨_, split_data_positional df 0 "date_based" (by simp [hdt])⟩
  · intro r hr hdt
    obtain ⟨hk0, hkn⟩ := cut_index_ge df r hr
    apply split_data_date_err df r hdt
    unfold pyIndexGet
    rw [if_pos hk0]
    apply List.getElem?_eq_none
    simp only [List.length_map]
    omega
  · intro r hr
    obtain ⟨hk0, hkn⟩ := cut_index_ge df r hr
    have hb : ("positional" == "date_based") = false := by decide
    have hcond : (("positional" == "date_based") && df.isDatetimeIndex) = false := by
      rw [hb]
      exact Bool.false_and _
    have ht : pySliceTo (pyInt ((df.rows.length : ℚ) * r)) df.rows = df.rows := by
      unfold pySliceTo
      rw [if_pos hk0]
      exact List.take_of_length_le (by omega)
    have hd : pySliceFrom (pyInt ((df.rows.length : ℚ) * r)) df.rows = [] := by
      unfold pySliceFrom
      rw [if_pos hk0]
      exact List.drop_of_length_le (by omega)
    rw [split_data_positional df r "positional" hcond, ht, hd]

/-- C3 witness for the amended theorem, at a concrete two-row table:
ratio 0 yields a pair, ratio 2 on the date-based path yields the index
error, and ratio 2 on the positional path yields (whole table, empty). -/
theorem C3_witness :
    (∃ p, split_data twoRowDF 0 "date_based" = .ok p) ∧
      split_data twoRowDF 2 "date_based" = .error "index out of bounds" ∧
      split_data twoRowDF 2 "positional" = .ok (twoRowDF, { twoRowDF with rows := [] }) := by
  obtain ⟨a, b, c⟩ := C3_no_ratio_validation twoRowDF (by decide)
  exact ⟨a, b 2 (by norm_num) rfl, c 2 (by norm_num)⟩

/-- C3 counterexample: `split_data` with the degenerate ratio 0 returns a
(training, testing) pair — the call is not rejected with any
`InvalidSplitRatio` condition. -/
theorem C3_counterexample :
    split_data twoRowDF 0 "date_based" = .ok (⟨["Close"], [], true⟩, twoRowDF) := by
  have hget : pyIndexGet (twoRowDF.rows.map (·.1))
      (pyInt ((twoRowDF.rows.length : ℚ) * 0)) = some 0 := by
    have h2 : pyInt ((twoRowDF.rows.length : ℚ) * 0) = 0 := by norm_num [pyInt]
    rw [h2]
    simp [twoRowDF, pyIndexGet]
  rw [split_data_date twoRowDF 0 rfl 0 hget]
  decide

@[simp]
theorem FVal.isFinite_num (q : ℚ) : (FVal.num q).isFinite = true := rfl

@[simp]
theorem FVal.isFinite_nan : FVal.nan.isFinite = false := rfl

@[simp]
theorem FVal.isFinite_inf : FVal.inf.isFinite = false := rfl

@[simp]
theorem FVal.isFinite_ninf : FVal.ninf.isFinite = false := rfl

@[simp]
theorem FVal.isNaN_num (q : ℚ) : (FVal.num q).isNaN = false := rfl

@[simp]
theorem FVal.isNaN_nan : FVal.nan.isNaN = true := rfl

@[simp]
theorem FVal.isNaN_inf : FVal.inf.isNaN = false := rfl

@[simp]
theorem FVal.isNaN_ninf : FVal.ninf.isNaN = false := rfl

@[simp]
theorem FVal.isInf_num (q : ℚ) : (FVal.num q).isInf = false := rfl

@[simp]
theorem FVal.isInf_nan : FVal.nan.isInf = false := rfl

@[simp]
theorem FVal.isInf_inf : FVal.inf.isInf = true := rfl

@[simp]
theorem FVal.isInf_ninf : FVal.ninf.isInf = true := rfl

@[simp]
theorem FVal.toQ_num (q : ℚ) : (FVal.num q).toQ = some q := rfl

@[simp]
theorem FVal.toQ_nan : FVal.nan.toQ = none := rfl

@[simp]
theorem FVal.toQ_inf : FVal.inf.toQ = none := rfl

@[simp]
theorem FVal.toQ_ninf : FVal.ninf.toQ = none := rfl

@[simp]
theorem FVal.toQD_num (q : ℚ) : (FVal.num q).toQD = q := rfl

@[simp]
theorem FVal.toQD_nan : FVal.nan.toQD = 0 := rfl

@[simp]
theorem FVal.toQD_inf : FVal.inf.toQD = 0 := rfl

@[simp]
theorem FVal.toQD_ninf : FVal.ninf.toQD = 0 := rfl

/-- Boolean-mask indexing with the both-finite mask agrees with collecting
the finite value pairs of the zipped arrays, and the mask is all-false
exactly when no pair survives. -/
theorem maskFilter_clean2 (pv av : List FVal) :
    ((maskFilter (List.zipWith (fun p a => p.isFinite && a.isFinite) pv av) pv).map FVal.toQD
        = (clean2 pv av).map (·.1)) ∧
      ((maskFilter (List.zipWith (fun p a => p.isFinite && a.isFinite) pv av) av).map FVal.toQD
        = (clean2 pv av).map (·.2)) ∧
      ((List.zipWith (fun p a => p.isFinite && a.isFinite) pv av).all (· = false)
        = (clean2 pv av).isEmpty) := by
  induction pv generalizing av with
  | nil => cases av <;> simp [clean2, maskFilter]
  | cons p pv ih =>
      cases av with
      | nil => simp [clean2, maskFilter]
      | cons a av =>
          obtain ⟨ih1, ih2, ih3⟩ := ih av
          replace ih3 : ((List.zipWith (fun p a => p.isFinite && a.isFinite) pv av).all
              fun x => !x) = (clean2 pv av).isEmpty := by simpa using ih3
          simp only [clean2] at ih1 ih2 ih3
          cases p <;> cases a <;>
            simp [clean2, maskFilter, List.filterMap_cons, ih1, ih2, ih3]

/-- Zipping two maps over the same list is a map of the combined function. -/
theorem zipWith_map_same {α β γ δ : Type} (f : β → γ → δ) (g : α → β) (h : α → γ)
    (l : List α) :
    List.zipWith f (l.map g) (l.map h) = l.map fun x => f (g x) (h x) := by
  induction l with
  | nil => rfl
  | cons x xs ih => simp [ih]

/-- Zipping two maps over the same list pairs the two images pointwise. -/
theorem zip_map_same {α β γ : Type} (g : α → β) (h : α → γ) (l : List α) :
    (l.map g).zip (l.map h) = l.map fun x => (g x, h x) := by
  induction l with
  | nil => rfl
  | cons x xs ih => simp [ih]

/-- Filtering a mapped list filters the source by the composed predicate. -/
theorem filter_of_map {α β : Type} (p : β → Bool) (f : α → β) (l : List α) :
    (l.map f).filter p = (l.filter fun x => p (f x)).map f := by
  induction l with
  | nil => rfl
  | cons x xs ih =>
      by_cases h : p (f x) <;> simp [List.filter_cons, h, ih]

/-- NaN count and infinity count sum to the non-finite count. -/
theorem countP_nonfinite (l : List FVal) :
    l.countP FVal.isNaN + l.countP FVal.isInf = l.countP fun v => !v.isFinite := by
  induction l with
  | nil => rfl
  | cons x xs ih =>
      rw [List.countP_cons, List.countP_cons, List.countP_cons]
      cases x <;> simp <;> omega

/-- `calculate_metrics` on arrays with zero common length. -/
theorem calcMetrics_noData (preds acts : List FVal)
    (h : min preds.length acts.length = 0) :
    calcMetricsValues preds acts = .error .noData := by
  unfold calcMetricsValues
  simp [h]

/-- `calculate_metrics` when every position has a non-finite value on one
side: the `NoValidData` error with the diagnostic counts. -/
theorem calcMetrics_noValid (preds acts : List FVal)
    (hlen : 0 < min preds.length acts.length)
    (hempty : cleanPairs preds acts = []) :
    calcMetricsValues preds acts =
      .error (.noValidData (min preds.length acts.length)
        ((preds.take (min preds.length acts.length)).countP FVal.isNaN)
        ((acts.take (min preds.length acts.length)).countP FVal.isNaN)
        ((preds.take (min preds.length acts.length)).countP FVal.isInf)
        ((acts.take (min preds.length acts.length)).countP FVal.isInf)) := by
  have hmask := (maskFilter_clean2 (preds.take (min preds.length acts.length))
    (acts.take (min preds.length acts.length))).2.2
  unfold calcMetricsValues
  rw [if_neg (by omega)]
  rw [if_pos]
  rw [hmask]
  unfold cleanPairs at hempty
  simp [hempty]

/-- `calculate_metrics` on arrays with at least one both-finite position:
every metric characterized over the surviving value pairs. -/
theorem calcMetrics_ok (preds acts : List FVal)
    (hlen : 0 < min preds.length acts.length)
    (hne : cleanPairs preds acts ≠ []) :
    calcMetricsValues preds acts = .ok
      { mse := meanQ ((cleanPairs preds acts).map fun pa => (pa.2 - pa.1) ^ 2)
        rmseSq := meanQ ((cleanPairs preds acts).map fun pa => (pa.2 - pa.1) ^ 2)
        mae := meanQ ((cleanPairs preds acts).map fun pa => |pa.2 - pa.1|)
        mape :=
          if ((cleanPairs preds acts).filter fun pa =>
              decide ((1 : ℚ) / 10 ^ 10 < |pa.2|)) ≠ [] then
            some (meanQ (((cleanPairs preds acts).filter fun pa =>
              decide ((1 : ℚ) / 10 ^ 10 < |pa.2|)).map fun pa =>
                |(pa.2 - pa.1) / pa.2|) * 100)
          else none
        directional_accuracy :=
          if 1 < (cleanActual preds acts).length then
            some (agreeFrac (upMoves (cleanActual preds acts))
              (upMoves (cleanPred preds acts)) * 100)
          else none } := by
  obtain ⟨h1, h2, h3⟩ := maskFilter_clean2 (preds.take (min preds.length acts.length))
    (acts.take (min preds.length acts.length))
  unfold cleanPairs at hne
  unfold calcMetricsValues
  rw [if_neg (by omega)]
  rw [if_neg (by rw [h3]; simpa using hne)]
  rw [h1, h2]
  dsimp only
  rw [zipWith_map_same, zip_map_same, filter_of_map]
  simp only [cleanPairs, cleanActual, cleanPred, upMoves, agreeFrac, List.map_map,
    List.length_map, ne_eq, List.map_eq_nil_iff, Function.comp_def]

/-- C7: `calculate_metrics` selects exactly the positions where both arrays
hold finite values, computes MSE (and RMSE, carried as its square) and MAE
over that subset only, and when no position survives fails with a
`NoValidData` condition whose diagnostic counts (NaN and infinity per
array) sum to the non-finite count of each array. -/
theorem C7_valid_mask (preds acts : List FVal)
    (hlen : 0 < min preds.length acts.length) :
    (cleanPairs preds acts ≠ [] →
      ∃ m, calcMetricsValues preds acts = .ok m ∧
        m.mse = meanQ ((cleanPairs preds acts).map fun pa => (pa.2 - pa.1) ^ 2) ∧
        m.rmseSq = m.mse ∧
        m.mae = meanQ ((cleanPairs preds acts).map fun pa => |pa.2 - pa.1|)) ∧
    (cleanPairs preds acts = [] →
      calcMetricsValues preds acts =
        .error (.noValidData (min preds.length acts.length)
          ((preds.take (min preds.length acts.length)).countP FVal.isNaN)
          ((acts.take (min preds.length acts.length)).countP FVal.isNaN)
          ((preds.take (min preds.length acts.length)).countP FVal.isInf)
          ((acts.take (min preds.length acts.length)).countP FVal.isInf)) ∧
      ((preds.take (min preds.length acts.length)).countP FVal.isNaN +
          (preds.take (min preds.length acts.length)).countP FVal.isInf =
          (preds.take (min preds.length acts.length)).countP fun v => !v.isFinite) ∧
      ((acts.take (min preds.length acts.length)).countP FVal.isNaN +
          (acts.take (min preds.length acts.length)).countP FVal.isInf =
          (acts.take (min preds.length acts.length)).countP fun v => !v.isFinite)) := by
  constructor
  · intro hne
    exact ⟨_, calcMetrics_ok preds acts hlen hne, rfl, rfl, rfl⟩
  · intro hempty
    exact ⟨calcMetrics_noValid preds acts hlen hempty,
      countP_nonfinite _, countP_nonfinite _⟩

/-- C7 witness: forecast `[1, 2]` against actual `[1, NaN]` — the NaN
position is dropped and the metrics are computed over the surviving pair. -/
theorem C7_witness :
    ∃ m, calcMetricsValues P7 A7 = .ok m ∧
      m.mse = meanQ ((cleanPairs P7 A7).map fun pa => (pa.2 - pa.1) ^ 2) ∧
      m.rmseSq = m.mse ∧
      m.mae = meanQ ((cleanPairs P7 A7).map fun pa => |pa.2 - pa.1|) :=
  (C7_valid_mask P7 A7 (by decide)).1 (by decide)

/-- C6: MAPE is computed only over the surviving positions whose actual
value exceeds `1e-10` in absolute value, and is reported as `None` when no
such position exists. -/
theorem C6_mape_positions (preds acts : List FVal) (m : Metrics)
    (h : calcMetricsValues preds acts = .ok m) :
    (((cleanPairs preds acts).filter fun pa => decide ((1 : ℚ) / 10 ^ 10 < |pa.2|)) = [] →
      m.mape = none) ∧
    (((cleanPairs preds acts).filter fun pa => decide ((1 : ℚ) / 10 ^ 10 < |pa.2|)) ≠ [] →
      m.mape = some (meanQ (((cleanPairs preds acts).filter fun pa =>
        decide ((1 : ℚ) / 10 ^ 10 < |pa.2|)).map fun pa => |(pa.2 - pa.1) / pa.2|) * 100)) := by
  by_cases hlen : 0 < min preds.length acts.length
  · by_cases hne : cleanPairs preds acts = []
    · rw [calcMetrics_noValid preds acts hlen hne] at h
      simp at h
    · rw [calcMetrics_ok preds acts hlen hne] at h
      simp only [Except.ok.injEq] at h
      subst h
      constructor
      · intro hz
        dsimp only
        rw [hz]
        simp
      · intro hz
        dsimp only
        rw [if_pos hz]
  · have h0 : min preds.length acts.length = 0 := by omega
    rw [calcMetrics_noData preds acts h0] at h
    simp at h

/-- C6 witness: against the all-zero actual series no position passes the
`|actual| > 1e-10` threshold and MAPE comes out `None`. -/
theorem C6_witness : ∃ m, calcMetricsValues P6 A6 = .ok m ∧ m.mape = none := by
  have h := calcMetrics_ok P6 A6 (by decide) (by decide)
  refine ⟨_, h, ?_⟩
  have hz : ((cleanPairs P6 A6).filter fun pa =>
      decide ((1 : ℚ) / 10 ^ 10 < |pa.2|)) = [] := by
    have hc : cleanPairs P6 A6 = [(1, 0)] := by decide
    rw [hc]
    norm_num [List.filter]
  exact (C6_mape_positions P6 A6 _ h).1 hz

/-- C5 (amended): directional accuracy is the percentage of consecutive
surviving positions whose boolean up-moves agree — the source compares
`np.diff(...) > 0` on both series, so a flat change and a decrease count as
agreeing (three-valued sign comparison is not what is computed); it is
`None` below two surviving observations. -/
theorem C5_directional_accuracy (preds acts : List FVal) (m : Metrics)
    (h : calcMetricsValues preds acts = .ok m) :
    (1 < (cleanActual preds acts).length →
      m.directional_accuracy =
        some (agreeFrac (upMoves (cleanActual preds acts))
          (upMoves (cleanPred preds acts)) * 100)) ∧
    ((cleanActual preds acts).length ≤ 1 → m.directional_accuracy = none) := by
  by_cases hlen : 0 < min preds.length acts.length
  · by_cases hne : cleanPairs preds acts = []
    · rw [calcMetrics_noValid preds acts hlen hne] at h
      simp at h
    · rw [calcMetrics_ok preds acts hlen hne] at h
      simp only [Except.ok.injEq] at h
      subst h
      constructor
      · intro hgt
        simp [hgt]
      · intro hle
        simp [Nat.not_lt.mpr hle]
  · have h0 : min preds.length acts.length = 0 := by omega
    rw [calcMetrics_noData preds acts h0] at h
    simp at h

/-- C5 witness: on the spec's own example, predicted `[1, 3, 0, 4]` against
actual `[1, 2, 1, 3]`, the reported directional accuracy is 100%. -/
theorem C5_witness :
    ∃ m, calcMetricsValues P5 A5 = .ok m ∧ m.directional_accuracy = some 100 := by
  have h := calcMetrics_ok P5 A5 (by decide) (by decide)
  refine ⟨_, h, ?_⟩
  have h2 := (C5_directional_accuracy P5 A5 _ h).1 (by decide)
  rw [h2]
  have ha : cleanActual P5 A5 = [1, 2, 1, 3] := by decide
  have hp : cleanPred P5 A5 = [1, 3, 0, 4] := by decide
  rw [ha, hp]
  have hu1 : upMoves [(1 : ℚ), 2, 1, 3] = [true, false, true] := by decide
  have hu2 : upMoves [(1 : ℚ), 3, 0, 4] = [true, false, true] := by decide
  rw [hu1, hu2]
  norm_num [agreeFrac, meanQ]

/-- C5 counterexample: on forecast `[2, 1]` against actual `[1, 1]` the
source reports 100% (both `diff > 0` booleans are false, hence "agree"),
while the claimed three-valued sign comparison yields 0% (the actual change
has sign 0, the predicted change sign −1). -/
theorem C5_counterexample :
    (∃ m, calculate_metrics stC5 = .ok m ∧ m.directional_accuracy = some 100) ∧
      specDirAcc [1, 1] [2, 1] = some 0 ∧ (100 : ℚ) ≠ 0 := by
  refine ⟨?_, ?_, by norm_num⟩
  · have hw : calculate_metrics stC5 = calcMetricsValues [.num 2, .num 1] [.num 1, .num 1] := rfl
    have h := calcMetrics_ok [FVal.num 2, FVal.num 1] [FVal.num 1, FVal.num 1]
      (by decide) (by decide)
    refine ⟨_, by rw [hw]; exact h, ?_⟩
    have ha : cleanActual [FVal.num 2, FVal.num 1] [FVal.num 1, FVal.num 1] = [1, 1] := by
      decide
    have hp : cleanPred [FVal.num 2, FVal.num 1] [FVal.num 1, FVal.num 1] = [2, 1] := by
      decide
    have hu1 : upMoves [(1 : ℚ), 1] = [false] := by decide
    have hu2 : upMoves [(2 : ℚ), 1] = [false] := by decide
    dsimp only
    rw [if_pos (by rw [ha]; decide)]
    rw [ha, hp, hu1, hu2]
    norm_num [agreeFrac, meanQ]
  · have hs1 : specSign ((1 : ℚ) - 1) = 0 := by norm_num [specSign]
    have hs2 : specSign ((1 : ℚ) - 2) = -1 := by norm_num [specSign]
    simp only [specDirAcc, List.length_cons, List.length_nil]
    rw [if_pos (by norm_num)]
    simp only [List.zip_cons_cons, List.tail_cons, List.zip_nil_right, List.map_cons,
      List.map_nil, hs1, hs2, List.zipWith_cons_cons, List.zipWith_nil_right]
    norm_num [meanQ]

/-- C4 (amended): `train_arima` checks the target column first and fails
naming only the target when it is absent — missing feature columns are not
named alongside it; when the target is present and feature columns are
missing it fails naming every missing feature column; in both cases the
session state (model, model_info, training/testing data) is unchanged. -/
theorem C4_train_errors
    (fit : List (Option ℚ) → Option (List (List (Option ℚ))) → Except String FittedModel)
    (st : ModelState) (training : DataFrame) (target : String)
    (features : List String) (test : Option DataFrame) :
    (training.hasCol target = false →
      train_arima fit st training target features test = .error (.targetNotFound target) ∧
      afterTrain st (train_arima fit st training target features test) = st) ∧
    (training.hasCol target = true →
      (features.filter fun f => !training.hasCol f) ≠ [] →
      train_arima fit st training target features test =
        .error (.featuresNotFound (features.filter fun f => !training.hasCol f)) ∧
      afterTrain st (train_arima fit st training target features test) = st) := by
  constructor
  · intro h
    have he : train_arima fit st training target features test =
        .error (.targetNotFound target) := by
      unfold train_arima
      rw [if_pos h]
    refine ⟨he, ?_⟩
    rw [he]
    rfl
  · intro h hm
    have he : train_arima fit st training target features test =
        .error (.featuresNotFound (features.filter fun f => !training.hasCol f)) := by
      unfold train_arima
      rw [if_neg (by simp [h])]
      dsimp only
      rw [if_pos hm]
    refine ⟨he, ?_⟩
    rw [he]
    rfl

/-- C4 witness: target `Close` present, feature `Volume` absent — the call
fails naming the missing feature and leaves the fresh session unchanged. -/
theorem C4_witness :
    train_arima dummyFit initState dfA "Close" ["Volume"] none =
      .error (.featuresNotFound ["Volume"]) ∧
    afterTrain initState (train_arima dummyFit initState dfA "Close" ["Volume"] none) =
      initState := by
  have h := (C4_train_errors dummyFit initState dfA "Close" ["Volume"] none).2
    (by decide) (by decide)
  have hf : (["Volume"].filter fun f => !dfA.hasCol f) = ["Volume"] := by decide
  rw [hf] at h
  exact h

/-- C4 counterexample to "naming every missing column": with BOTH the
target `Open` and the feature `Volume` absent from the training table, the
raised error names only the target — the missing feature column `Volume` is
not named. -/
theorem C4_counterexample :
    train_arima dummyFit initState dfA "Open" ["Volume"] none =
      .error (.targetNotFound "Open") ∧
    "Volume" ∉ (TrainErr.targetNotFound "Open").namedColumns ∧
    dfA.hasCol "Volume" = false := by
  refine ⟨?_, by decide, by decide⟩
  exact ((C4_train_errors dummyFit initState dfA "Open" ["Volume"] none).1 (by decide)).1

/-- C8 (amended): a successful `predict` always replaces the stored
forecast with the new one, but replaces the stored actual series only when
the new call produced a non-empty actual series; when the new forecast
carries no actual series (or an empty one), the previously stored actual
values survive unchanged. -/
theorem C8_predict_replaces (mp : ℕ → List FVal) (st : ModelState) (nper : Option ℕ)
    (st' : ModelState) (res : PredictResult)
    (h : predict mp st nper = .ok (st', res)) :
    st'.predictions = some res.values ∧
    (∀ a, res.actual = some a → a ≠ [] → st'.actual_values = some a) ∧
    ((res.actual = none ∨ res.actual = some []) →
      st'.actual_values = st.actual_values) := by
  unfold predict at h
  repeat' split at h
  all_goals try dsimp only at h
  all_goals try exact Except.noConfusion h
  all_goals repeat' split at h
  all_goals try exact Except.noConfusion h
  all_goals injection h with h2
  all_goals simp only [Prod.mk.injEq] at h2
  all_goals obtain ⟨hst, hres⟩ := h2
  all_goals subst hst
  all_goals subst hres
  all_goals first
    | exact ⟨rfl, fun _ ha _ => Option.noConfusion ha, fun _ => rfl⟩
    | exact ⟨rfl,
        fun a ha _ => by injection ha with ha2; subst ha2; rfl,
        fun h1 => h1.elim (fun h1 => Option.noConfusion h1)
          (fun h1 => by injection h1 with h2; exact absurd h2 (by assumption))⟩
    | exact ⟨rfl,
        fun a ha hne => by injection ha with ha2; subst ha2; simp_all,
        fun _ => rfl⟩

/-- C8 witness: on a session with a testing partition, predicting one
period replaces both the stored forecast and the stored actual series. -/
theorem C8_witness : S8.actual_values = some [FVal.num 6] ∧
    predict mp8 st8b (some 1) = .ok (S8, R8) := by
  have h : predict mp8 st8b (some 1) = .ok (S8, R8) := by decide
  refine ⟨?_, h⟩
  exact (C8_predict_replaces mp8 st8b (some 1) S8 R8 h).2.1 [FVal.num 6] (by decide) (by decide)

/-- C8 counterexample: on a session with no testing partition but a stale
actual series from an earlier predict, a successful new predict leaves the
stale actual series in place instead of clearing it — the stored pair is
the new forecast against the old actuals. -/
theorem C8_counterexample :
    predict mp8 st8 (some 2) = .ok (st8After, ⟨[.num 3, .num 3], [11, 12], none, 2⟩) ∧
    st8After.actual_values = some [.num 7] ∧
    some [FVal.num 7] ≠ (none : Option (List FVal)) := by
  refine ⟨?_, by decide, by decide⟩
  unfold predict
  norm_num [st8, mp8, trainDF8, st8After, info8, List.range_succ]
  decide

/-! ### Frame lemmas for the feature-generation proofs. -/

/-- A found column index is within the column list. -/
theorem colIdx_lt {c : String} : ∀ {ns : List String} {j : ℕ},
    colIdx c ns = some j → j < ns.length := by
  intro ns
  induction ns with
  | nil => intro j h; cases h
  | cons n ns ih =>
      intro j h
      unfold colIdx at h
      by_cases hn : n = c
      · rw [if_pos hn] at h
        injection h with h
        simp only [List.length_cons]
        omega
      · rw [if_neg hn] at h
        cases hc : colIdx c ns with
        | none => rw [hc] at h; cases h
        | some j' =>
            rw [hc] at h
            replace h : j' + 1 = j := Option.some.inj h
            have := ih hc
            simp only [List.length_cons]
            omega

/-- The column at a found index is the looked-up name. -/
theorem colIdx_get {c : String} : ∀ {ns : List String} {j : ℕ},
    colIdx c ns = some j → ns[j]? = some c := by
  intro ns
  induction ns with
  | nil => intro j h; cases h
  | cons n ns ih =>
      intro j h
      unfold colIdx at h
      by_cases hn : n = c
      · rw [if_pos hn] at h
        injection h with h
        subst hn
        rw [← h]
        simp
      · rw [if_neg hn] at h
        cases hc : colIdx c ns with
        | none => rw [hc] at h; cases h
        | some j' =>
            rw [hc] at h
            replace h : j' + 1 = j := Option.some.inj h
            rw [← h]
            simpa using ih hc

/-- An absent name has no column index. -/
theorem colIdx_of_not_mem {c : String} : ∀ {ns : List String},
    c ∉ ns → colIdx c ns = none := by
  intro ns
  induction ns with
  | nil => intro _; rfl
  | cons n ns ih =>
      intro h
      simp only [colIdx]
      rw [if_neg (fun hn : n = c => h (hn ▸ List.mem_cons_self n ns))]
      rw [ih fun hm => h (List.mem_cons_of_mem _ hm)]
      rfl

/-- A present name has a column index. -/
theorem colIdx_of_mem {c : String} : ∀ {ns : List String},
    c ∈ ns → ∃ j, colIdx c ns = some j := by
  intro ns
  induction ns with
  | nil => intro h; cases h
  | cons n ns ih =>
      intro h
      simp only [colIdx]
      by_cases hn : n = c
      · exact ⟨0, by rw [if_pos hn]⟩
      · have hm : c ∈ ns := by
          cases List.mem_cons.mp h with
          | inl h1 => exact absurd h1.symm hn
          | inr h2 => exact h2
        obtain ⟨j, hj⟩ := ih hm
        exact ⟨j + 1, by rw [if_neg hn, hj]; rfl⟩

/-- Appending a previously absent column makes it found at the end. -/
theorem colIdx_append_self {c : String} : ∀ {ns : List String},
    colIdx c ns = none → colIdx c (ns ++ [c]) = some ns.length := by
  intro ns
  induction ns with
  | nil => intro _; simp [colIdx]
  | cons n ns ih =>
      intro h
      simp only [colIdx] at h
      show colIdx c (n :: (ns ++ [c])) = some (n :: ns).length
      simp only [colIdx]
      by_cases hn : n = c
      · rw [if_pos hn] at h; cases h
      · rw [if_neg hn] at h ⊢
        cases hc : colIdx c ns with
        | some j => rw [hc] at h; cases h
        | none =>
            rw [ih hc]
            rfl

/-- Appending a different column does not change a lookup. -/
theorem colIdx_append_other {c c' : String} (hne : c' ≠ c) : ∀ {ns : List String},
    colIdx c' (ns ++ [c]) = colIdx c' ns := by
  intro ns
  induction ns with
  | nil =>
      show colIdx c' [c] = none
      simp only [colIdx]
      rw [if_neg fun h => hne h.symm]
      rfl
  | cons n ns ih =>
      show colIdx c' (n :: (ns ++ [c])) = colIdx c' (n :: ns)
      simp only [colIdx]
      by_cases hn : n = c'
      · rw [if_pos hn, if_pos hn]
      · rw [if_neg hn, if_neg hn, ih]

/-- `hasCol` is membership in the column list. -/
theorem hasCol_iff_mem (df : DataFrame) (c : String) :
    df.hasCol c = true ↔ c ∈ df.colNames := by
  simp [DataFrame.hasCol]

/-- Row-wise replacement at a column index recovers the assigned values. -/
theorem map_zip_set_getD (j : ℕ) :
    ∀ (rows : List (ℚ × List (Option ℚ))) (vals : List (Option ℚ)),
      vals.length = rows.length → (∀ r ∈ rows, j < r.2.length) →
      ((rows.zip vals).map fun rv => (rv.1.2.set j rv.2).getD j none) = vals := by
  intro rows
  induction rows with
  | nil =>
      intro vals hlen _
      rw [List.length_nil, List.length_eq_zero] at hlen
      subst hlen
      rfl
  | cons r rows ih =>
      intro vals hlen hcells
      cases vals with
      | nil => simp at hlen
      | cons v vals =>
          simp only [List.zip_cons_cons, List.map_cons]
          congr 1
          · rw [List.getD_eq_getElem?_getD, List.getElem?_set_self
              (hcells r (List.mem_cons_self _ _))]
            rfl
          · exact ih vals (by simpa using hlen)
              (fun r' hr' => hcells r' (List.mem_cons_of_mem _ hr'))

/-- Row-wise appending of a value at the end recovers the assigned values. -/
theorem map_zip_append_getD (L : ℕ) :
    ∀ (rows : List (ℚ × List (Option ℚ))) (vals : List (Option ℚ)),
      vals.length = rows.length → (∀ r ∈ rows, r.2.length = L) →
      ((rows.zip vals).map fun rv => (rv.1.2 ++ [rv.2]).getD L none) = vals := by
  intro rows
  induction rows with
  | nil =>
      intro vals hlen _
      rw [List.length_nil, List.length_eq_zero] at hlen
      subst hlen
      rfl
  | cons r rows ih =>
      intro vals hlen hcells
      cases vals with
      | nil => simp at hlen
      | cons v vals =>
          simp only [List.zip_cons_cons, List.map_cons]
          congr 1
          · rw [List.getD_eq_getElem?_getD, ← hcells r (List.mem_cons_self _ _),
              List.getElem?_concat_length]
            rfl
          · exact ih vals (by simpa using hlen)
              (fun r' hr' => hcells r' (List.mem_cons_of_mem _ hr'))

/-- A map over a zip that ignores the second component is a map over the
first list. -/
theorem map_zip_left {A B C : Type} (f : A → C) :
    ∀ (rows : List A) (vals : List B), vals.length = rows.length →
      ((rows.zip vals).map fun rv => f rv.1) = rows.map f := by
  intro rows
  induction rows with
  | nil => intro vals _; rfl
  | cons r rows ih =>
      intro vals hlen
      cases vals with
      | nil => simp at hlen
      | cons v vals =>
          simp only [List.zip_cons_cons, List.map_cons]
          congr 1
          exact ih vals (by simpa using hlen)

/-- `setCol` preserves the row count when the value list is aligned. -/
theorem setCol_rows_length (df : DataFrame) (c : String) (vals : List (Option ℚ))
    (hlen : vals.length = df.rows.length) :
    (df.setCol c vals).rows.length = df.rows.length := by
  unfold DataFrame.setCol
  cases colIdx c df.colNames <;>
    simp [List.length_zip, hlen]

/-- `setCol` with a fresh name appends the name. -/
theorem setCol_colNames_fresh (df : DataFrame) (c : String) (vals : List (Option ℚ))
    (h : c ∉ df.colNames) :
    (df.setCol c vals).colNames = df.colNames ++ [c] := by
  unfold DataFrame.setCol
  rw [colIdx_of_not_mem h]

/-- `setCol` never removes column names. -/
theorem setCol_isDT (df : DataFrame) (c : String) (vals : List (Option ℚ)) :
    (df.setCol c vals).isDatetimeIndex = df.isDatetimeIndex := by
  unfold DataFrame.setCol
  cases colIdx c df.colNames <;> rfl

/-- `setCol` with a fresh, aligned column preserves well-formedness. -/
theorem WF_setCol_fresh (df : DataFrame) (c : String) (vals : List (Option ℚ))
    (hwf : df.WF) (h : c ∉ df.colNames) (hlen : vals.length = df.rows.length) :
    (df.setCol c vals).WF := by
  unfold DataFrame.setCol
  rw [colIdx_of_not_mem h]
  intro r hr
  simp only [List.mem_map] at hr
  obtain ⟨rv, hrv, hreq⟩ := hr
  subst hreq
  have hmem := (List.mem_zip hrv).1
  simp [hwf _ hmem]

/-- Reading back a freshly assigned column returns the assigned values. -/
theorem getCol_setCol_fresh_self (df : DataFrame) (c : String) (vals : List (Option ℚ))
    (hwf : df.WF) (h : c ∉ df.colNames) (hlen : vals.length = df.rows.length) :
    (df.setCol c vals).getCol c = some vals := by
  unfold DataFrame.setCol
  rw [colIdx_of_not_mem h]
  unfold DataFrame.getCol
  dsimp only
  rw [colIdx_append_self (colIdx_of_not_mem h)]
  simp only [Option.map_some', Option.some.injEq, List.map_map]
  rw [show ((fun r : ℚ × List (Option ℚ) => r.2.getD df.colNames.length none) ∘
      fun rv : (ℚ × List (Option ℚ)) × Option ℚ => (rv.1.1, rv.1.2 ++ [rv.2])) =
      fun rv : (ℚ × List (Option ℚ)) × Option ℚ => (rv.1.2 ++ [rv.2]).getD
        df.colNames.length none from rfl]
  exact map_zip_append_getD df.colNames.length df.rows vals hlen
    (fun r hr => hwf r hr)

/-- Assigning a fresh column leaves every other column lookup unchanged. -/
theorem getCol_setCol_fresh_other (df : DataFrame) (c : String) (vals : List (Option ℚ))
    (c' : String) (hne : c' ≠ c)
    (hwf : df.WF) (h : c ∉ df.colNames) (hlen : vals.length = df.rows.length) :
    (df.setCol c vals).getCol c' = df.getCol c' := by
  unfold DataFrame.setCol
  rw [colIdx_of_not_mem h]
  unfold DataFrame.getCol
  dsimp only
  rw [colIdx_append_other hne]
  cases hci : colIdx c' df.colNames with
  | none => rfl
  | some j =>
      have hj : j < df.colNames.length := colIdx_lt hci
      simp only [Option.map_some', Option.some.injEq, List.map_map]
      rw [List.map_congr_left (f := (fun r : ℚ × List (Option ℚ) =>
          r.2.getD j none) ∘ fun rv : (ℚ × List (Option ℚ)) × Option ℚ =>
          (rv.1.1, rv.1.2 ++ [rv.2]))
        (g := fun rv : (ℚ × List (Option ℚ)) × Option ℚ => rv.1.2.getD j none) ?_]
      · exact map_zip_left (fun r : ℚ × List (Option ℚ) => r.2.getD j none)
          df.rows vals hlen
      · intro rv hrv
        have hmem := (List.mem_zip hrv).1
        simp only [Function.comp]
        rw [List.getD_eq_getElem?_getD, List.getD_eq_getElem?_getD,
          List.getElem?_append_left (by rw [hwf _ hmem]; exact hj)]

/-- A present column reads back as many cells as there are rows. -/
theorem getColD_length_of_mem (df : DataFrame) (c : String) (h : c ∈ df.colNames) :
    (getColD df c).length = df.rows.length := by
  obtain ⟨j, hj⟩ := colIdx_of_mem h
  unfold getColD DataFrame.getCol
  rw [hj]
  simp

/-- A rolling column is as long as its source. -/
theorem rollingCol_length (agg : List ℚ → Option ℚ) (w : ℕ) (xs : List (Option ℚ)) :
    (rollingCol agg w xs).length = xs.length := by
  simp [rollingCol]

/-- Specification of the inner operation loop: the generated names in
order, frame bookkeeping, the content of every generated column, and
non-interference with other columns. -/
theorem addOps_spec (c : String) (w : ℕ) :
    ∀ (ops : List String) (df : DataFrame),
      df.WF → c ∈ df.colNames →
      (∀ o ∈ ops, (opAgg o).isSome) →
      (∀ nm ∈ opsNames c w ops, nm ∉ df.colNames) →
      (opsNames c w ops).Nodup →
      (addOps df c w ops).2 = opsNames c w ops ∧
      (addOps df c w ops).1.colNames = df.colNames ++ opsNames c w ops ∧
      (addOps df c w ops).1.rows.length = df.rows.length ∧
      (addOps df c w ops).1.WF ∧
      (∀ o ∈ ops, (addOps df c w ops).1.getCol (featName c o w) =
        some (rollingCol (aggOf o) w (getColD df c))) ∧
      (∀ c', c' ∉ opsNames c w ops → (addOps df c w ops).1.getCol c' = df.getCol c') := by
  intro ops
  induction ops with
  | nil =>
      intro df hwf hc _ _ _
      refine ⟨rfl, by simp [addOps, opsNames], rfl, hwf, by simp, fun c' _ => rfl⟩
  | cons o os ih =>
      intro df hwf hc hrec hfresh hnd
      obtain ⟨agg, hagg⟩ := Option.isSome_iff_exists.mp (hrec o (List.mem_cons_self _ _))
      have hnm : featName c o w ∉ df.colNames :=
        hfresh _ (by simp [opsNames])
      have hvlen : (rollingCol agg w (getColD df c)).length = df.rows.length := by
        rw [rollingCol_length, getColD_length_of_mem df c hc]
      have hstep : addOpFeature df c w o =
          (df.setCol (featName c o w) (rollingCol agg w (getColD df c)), [featName c o w]) := by
        unfold addOpFeature
        rw [hagg]
      set df1 := df.setCol (featName c o w) (rollingCol agg w (getColD df c)) with hdf1
      have hwf1 : df1.WF := WF_setCol_fresh df _ _ hwf hnm hvlen
      have hcn1 : df1.colNames = df.colNames ++ [featName c o w] :=
        setCol_colNames_fresh df _ _ hnm
      have hlen1 : df1.rows.length = df.rows.length := setCol_rows_length df _ _ hvlen
      have hc1 : c ∈ df1.colNames := by
        rw [hcn1]; exact List.mem_append_left _ hc
      have hgetc : df1.getCol c = df.getCol c :=
        getCol_setCol_fresh_other df _ _ c (fun he => hnm (he ▸ hc)) hwf hnm hvlen
      have hgetcD : getColD df1 c = getColD df c := by
        unfold getColD; rw [hgetc]
      have hndtail : (opsNames c w os).Nodup := by
        simpa [opsNames] using hnd.of_cons
      have hhead : featName c o w ∉ opsNames c w os := by
        have := hnd
        simp only [opsNames, List.map_cons, List.nodup_cons] at this
        simpa [opsNames] using this.1
      obtain ⟨ih1, ih2, ih3, ih4, ih5, ih6⟩ := ih df1 hwf1 hc1
        (fun o' ho' => hrec o' (List.mem_cons_of_mem _ ho'))
        (by
          intro nm hmem
          rw [hcn1]
          intro hcontra
          rcases List.mem_append.mp hcontra with h1 | h1
          · exact hfresh nm (by simp [opsNames] at hmem ⊢; tauto) h1
          · rcases List.mem_singleton.mp h1 with h2
            exact hhead (h2 ▸ hmem))
        hndtail
      have hfold : addOps df c w (o :: os) =
          ((addOps df1 c w os).1, [featName c o w] ++ (addOps df1 c w os).2) := by
        simp only [addOps, hstep, hdf1]
      refine ⟨?_, ?_, ?_, ?_, ?_, ?_⟩
      · rw [hfold]
        simp only [ih1, opsNames, List.map_cons, List.singleton_append]
      · rw [hfold, ih2, hcn1, List.append_assoc]
        simp [opsNames]
      · rw [hfold, ih3, hlen1]
      · rw [hfold]
        exact ih4
      · intro o' ho'
        rcases List.mem_cons.mp ho' with h1 | h1
        · subst h1
          rw [hfold]
          have := ih6 (featName c o' w) hhead
          rw [this, hdf1]
          rw [getCol_setCol_fresh_self df _ _ hwf hnm hvlen]
          unfold aggOf
          rw [hagg]
          rfl
        · rw [hfold]
          rw [ih5 o' h1, hgetcD]
      · intro c' hc'
        have hc'1 : c' ∉ opsNames c w os := by
          intro hmem
          exact hc' (by simp [opsNames] at hmem ⊢; tauto)
        have hc'2 : c' ≠ featName c o w := by
          intro he
          exact hc' (by simp [opsNames, he])
        rw [hfold, ih6 c' hc'1, hdf1,
          getCol_setCol_fresh_other df _ _ c' hc'2 hwf hnm hvlen]

/-- Specification of the middle window loop, lifted from `addOps_spec`. -/
theorem addWindows_spec (c : String) (ops : List String) :
    ∀ (ws : List ℕ) (df : DataFrame),
      df.WF → c ∈ df.colNames →
      (∀ o ∈ ops, (opAgg o).isSome) →
      (∀ nm ∈ winNames c ws ops, nm ∉ df.colNames) →
      (winNames c ws ops).Nodup →
      (addWindows df c ops ws).2 = winNames c ws ops ∧
      (addWindows df c ops ws).1.colNames = df.colNames ++ winNames c ws ops ∧
      (addWindows df c ops ws).1.rows.length = df.rows.length ∧
      (addWindows df c ops ws).1.WF ∧
      (∀ w ∈ ws, ∀ o ∈ ops, (addWindows df c ops ws).1.getCol (featName c o w) =
        some (rollingCol (aggOf o) w (getColD df c))) ∧
      (∀ c', c' ∉ winNames c ws ops →
        (addWindows df c ops ws).1.getCol c' = df.getCol c') := by
  intro ws
  induction ws with
  | nil =>
      intro df hwf hc _ _ _
      exact ⟨rfl, by simp [addWindows, winNames], rfl, hwf, by simp, fun _ _ => rfl⟩
  | cons w ws ih =>
      intro df hwf hc hrec hfresh hnd
      have hsplit : winNames c (w :: ws) ops = opsNames c w ops ++ winNames c ws ops := by
        simp [winNames]
      have hfresh1 : ∀ nm ∈ opsNames c w ops, nm ∉ df.colNames :=
        fun nm h => hfresh nm (by rw [hsplit]; exact List.mem_append_left _ h)
      have hfresh2 : ∀ nm ∈ winNames c ws ops, nm ∉ df.colNames :=
        fun nm h => hfresh nm (by rw [hsplit]; exact List.mem_append_right _ h)
      rw [hsplit] at hnd
      have hnd1 : (opsNames c w ops).Nodup := (List.nodup_append.mp hnd).1
      have hnd2 : (winNames c ws ops).Nodup := (List.nodup_append.mp hnd).2.1
      have hdisj : List.Disjoint (opsNames c w ops) (winNames c ws ops) :=
        (List.nodup_append.mp hnd).2.2
      obtain ⟨a1, a2, a3, a4, a5, a6⟩ := addOps_spec c w ops df hwf hc hrec hfresh1 hnd1
      set df1 := (addOps df c w ops).1 with hdf1
      have hcnot : c ∉ opsNames c w ops := fun hmem => hfresh1 c hmem hc
      have hgetc : df1.getCol c = df.getCol c := a6 c hcnot
      have hgetcD : getColD df1 c = getColD df c := by unfold getColD; rw [hgetc]
      have hc1 : c ∈ df1.colNames := by rw [a2]; exact List.mem_append_left _ hc
      obtain ⟨ih1, ih2, ih3, ih4, ih5, ih6⟩ := ih df1 a4 hc1 hrec
        (by
          intro nm hmem
          rw [a2]
          intro hcontra
          rcases List.mem_append.mp hcontra with h1 | h1
          · exact hfresh2 nm hmem h1
          · exact hdisj h1 hmem)
        hnd2
      have hfold : addWindows df c ops (w :: ws) =
          ((addWindows df1 c ops ws).1,
            (addOps df c w ops).2 ++ (addWindows df1 c ops ws).2) := by
        simp only [addWindows]
      refine ⟨?_, ?_, ?_, ?_, ?_, ?_⟩
      · rw [hfold]
        simp only [a1, ih1, hsplit]
      · rw [hfold, ih2, a2, List.append_assoc, hsplit]
      · rw [hfold, ih3, a3]
      · rw [hfold]
        exact ih4
      · intro w' hw' o ho'
        rcases List.mem_cons.mp hw' with h1 | h1
        · subst h1
          have hnmem : featName c o w' ∉ winNames c ws ops :=
            fun hmem => hdisj (by
              simp only [opsNames, List.mem_map]
              exact ⟨o, ho', rfl⟩) hmem
          rw [hfold, ih6 _ hnmem]
          exact a5 o ho'
        · rw [hfold, ih5 w' h1 o ho', hgetcD]
      · intro c' hc'
        rw [hsplit] at hc'
        have hc'1 : c' ∉ winNames c ws ops :=
          fun hmem => hc' (List.mem_append_right _ hmem)
        have hc'2 : c' ∉ opsNames c w ops :=
          fun hmem => hc' (List.mem_append_left _ hmem)
        rw [hfold, ih6 c' hc'1, a6 c' hc'2]

/-- Specification of the outer column loop, lifted from `addWindows_spec`:
the full generated name list in order, no warnings when every source column
is present, frame bookkeeping, and the content of every generated column
computed from the original table. -/
theorem addCols_spec (windows : List ℕ) (ops : List String) :
    ∀ (cols : List String) (df : DataFrame),
      df.WF → (∀ c ∈ cols, c ∈ df.colNames) →
      (∀ o ∈ ops, (opAgg o).isSome) →
      (∀ nm ∈ featNames cols windows ops, nm ∉ df.colNames) →
      (featNames cols windows ops).Nodup →
      (addCols df windows ops cols).2.1 = featNames cols windows ops ∧
      (addCols df windows ops cols).2.2 = [] ∧
      (addCols df windows ops cols).1.colNames = df.colNames ++ featNames cols windows ops ∧
      (addCols df windows ops cols).1.rows.length = df.rows.length ∧
      (addCols df windows ops cols).1.WF ∧
      (∀ c ∈ cols, ∀ w ∈ windows, ∀ o ∈ ops,
        (addCols df windows ops cols).1.getCol (featName c o w) =
          some (rollingCol (aggOf o) w (getColD df c))) ∧
      (∀ c', c' ∉ featNames cols windows ops →
        (addCols df windows ops cols).1.getCol c' = df.getCol c') := by
  intro cols
  induction cols with
  | nil =>
      intro df hwf _ _ _ _
      exact ⟨rfl, rfl, by simp [addCols, featNames], rfl, hwf, by simp, fun _ _ => rfl⟩
  | cons c cs ih =>
      intro df hwf hcols hrec hfresh hnd
      have hsplit : featNames (c :: cs) windows ops =
          winNames c windows ops ++ featNames cs windows ops := by
        simp [featNames]
      have hcmem : c ∈ df.colNames := hcols c (List.mem_cons_self _ _)
      have hfresh1 : ∀ nm ∈ winNames c windows ops, nm ∉ df.colNames :=
        fun nm h => hfresh nm (by rw [hsplit]; exact List.mem_append_left _ h)
      have hfresh2 : ∀ nm ∈ featNames cs windows ops, nm ∉ df.colNames :=
        fun nm h => hfresh nm (by rw [hsplit]; exact List.mem_append_right _ h)
      rw [hsplit] at hnd
      have hnd1 : (winNames c windows ops).Nodup := (List.nodup_append.mp hnd).1
      have hnd2 : (featNames cs windows ops).Nodup := (List.nodup_append.mp hnd).2.1
      have hdisj : List.Disjoint (winNames c windows ops) (featNames cs windows ops) :=
        (List.nodup_append.mp hnd).2.2
      obtain ⟨a1, a2, a3, a4, a5, a6⟩ :=
        addWindows_spec c ops windows df hwf hcmem hrec hfresh1 hnd1
      set df1 := (addWindows df c ops windows).1 with hdf1
      obtain ⟨ih1, ih2, ih3, ih4, ih5, ih6, ih7⟩ := ih df1 a4
        (by
          intro c'' hc''
          rw [a2]
          exact List.mem_append_left _ (hcols c'' (List.mem_cons_of_mem _ hc'')))
        hrec
        (by
          intro nm hmem
          rw [a2]
          intro hcontra
          rcases List.mem_append.mp hcontra with h1 | h1
          · exact hfresh2 nm hmem h1
          · exact hdisj h1 hmem)
        hnd2
      have hfold : addCols df windows ops (c :: cs) =
          ((addCols df1 windows ops cs).1,
            (addWindows df c ops windows).2 ++ (addCols df1 windows ops cs).2.1,
            (addCols df1 windows ops cs).2.2) := by
        simp only [addCols, hasCol_iff_mem df c |>.mpr hcmem, if_true]
      refine ⟨?_, ?_, ?_, ?_, ?_, ?_, ?_⟩
      · rw [hfold]
        simp only [a1, ih1, hsplit]
      · rw [hfold]
        exact ih2
      · rw [hfold, ih3, a2, List.append_assoc, hsplit]
      · rw [hfold, ih4, a3]
      · rw [hfold]
        exact ih5
      · intro c'' hc'' w hw o ho
        rcases List.mem_cons.mp hc'' with h1 | h1
        · subst h1
          have hmemw : featName c'' o w ∈ winNames c'' windows ops := by
            simp only [winNames, List.mem_flatMap]
            refine ⟨w, hw, ?_⟩
            simp only [opsNames, List.mem_map]
            exact ⟨o, ho, rfl⟩
          have hnmem : featName c'' o w ∉ featNames cs windows ops :=
            fun hmem => hdisj hmemw hmem
          rw [hfold, ih7 _ hnmem]
          exact a5 w hw o ho
        · have hpres : c'' ∉ winNames c windows ops :=
            fun hmem => hfresh1 c'' hmem (hcols c'' (List.mem_cons_of_mem _ h1))
          have hgetc : getColD df1 c'' = getColD df c'' := by
            unfold getColD
            rw [a6 c'' hpres]
          rw [hfold, ih6 c'' h1 w hw o ho, hgetc]
      · intro c' hc'
        rw [hsplit] at hc'
        have hc'1 : c' ∉ featNames cs windows ops :=
          fun hmem => hc' (List.mem_append_right _ hmem)
        have hc'2 : c' ∉ winNames c windows ops :=
          fun hmem => hc' (List.mem_append_left _ hmem)
        rw [hfold, ih7 c' hc'1, a6 c' hc'2]

/-- The first defined entry of a rolling column, at row `w-1`, aggregates
rows `0 … w-1` of the source. -/
theorem rollingCol_at_first (agg : List ℚ → Option ℚ) (w : ℕ) (xs : List (Option ℚ))
    (hw : 1 ≤ w) (hlen : w - 1 < xs.length) :
    (rollingCol agg w xs)[w - 1]? = some ((allSome (xs.take w)).bind agg) := by
  unfold rollingCol
  rw [List.getElem?_map, List.getElem?_range hlen]
  simp only [Option.map_some', Option.some.injEq]
  unfold windowAt
  rw [if_pos (by omega), show w - 1 + 1 - w = 0 from by omega, List.drop_zero]

/-- Entries of a rolling column before row `w-1` are NaN. -/
theorem rollingCol_before_first (agg : List ℚ → Option ℚ) (w : ℕ)
    (xs : List (Option ℚ)) (i : ℕ) (hi : i < w - 1) (hlen : i < xs.length) :
    (rollingCol agg w xs)[i]? = some none := by
  unfold rollingCol
  rw [List.getElem?_map, List.getElem?_range hlen]
  simp only [Option.map_some', Option.some.injEq]
  unfold windowAt
  rw [if_neg (by omega)]
  rfl

/-- C2: with every requested source column present, every operation
recognized, and the generated feature names fresh and mutually distinct,
`generate_rolling_features` returns the feature-name list enumerated with
the outer loop over columns, middle loop over windows, and inner loop over
operations; each derived rolling column's entry at row `w-1` equals the
chosen aggregate of rows `0 … w-1` of the source column; and every row
before index `w-1` is absent from the returned table (its cell in that
derived column is NaN, so `dropna` removes it). -/
theorem C2_rolling_features (df : DataFrame) (columns : List String)
    (windows : List ℕ) (operations : List String)
    (hwf : df.WF)
    (hcols : ∀ c ∈ columns, c ∈ df.colNames)
    (hrec : ∀ o ∈ operations, (opAgg o).isSome)
    (hfresh : ∀ nm ∈ featNames columns windows operations, nm ∉ df.colNames)
    (hnd : (featNames columns windows operations).Nodup) :
    (generate_rolling_features df columns windows operations).2.1 =
      featNames columns windows operations ∧
    (∀ c ∈ columns, ∀ w ∈ windows, ∀ o ∈ operations, 1 ≤ w →
      w - 1 < df.rows.length →
      (getColD (addCols df windows operations columns).1 (featName c o w))[w - 1]? =
        some ((allSome ((getColD df c).take w)).bind (aggOf o))) ∧
    (∀ c ∈ columns, ∀ w ∈ windows, ∀ o ∈ operations, ∀ i, i < w - 1 →
      ∀ hi : i < (addCols df windows operations columns).1.rows.length,
        (addCols df windows operations columns).1.rows.get ⟨i, hi⟩ ∉
          (generate_rolling_features df columns windows operations).1.rows) := by
  obtain ⟨s1, s2, s3, s4, s5, s6, s7⟩ :=
    addCols_spec windows operations columns df hwf hcols hrec hfresh hnd
  refine ⟨s1, ?_, ?_⟩
  · intro c hcm w hw o ho hw1 hwlen
    have hcontent := s6 c hcm w hw o ho
    unfold getColD
    rw [hcontent]
    simp only [Option.getD_some]
    exact rollingCol_at_first (aggOf o) w (getColD df c) hw1
      (by rw [getColD_length_of_mem df c (hcols c hcm)]; exact hwlen)
  · intro c hcm w hw o ho i hiw hi
    have hcontent := s6 c hcm w hw o ho
    set aug := (addCols df windows operations columns).1 with haug
    obtain ⟨j, hj, hvals⟩ : ∃ j, colIdx (featName c o w) aug.colNames = some j ∧
        (aug.rows.map fun r => r.2.getD j none) =
          rollingCol (aggOf o) w (getColD df c) := by
      unfold DataFrame.getCol at hcontent
      cases hci : colIdx (featName c o w) aug.colNames with
      | none => rw [hci] at hcontent; cases hcontent
      | some j =>
          rw [hci] at hcontent
          exact ⟨j, rfl, Option.some.inj hcontent⟩
    have hjlt : j < aug.colNames.length := colIdx_lt hj
    have hlen2 : i < df.rows.length := by rw [← s4]; exact hi
    have hval_i : (aug.rows.map fun r => r.2.getD j none)[i]? = some none := by
      rw [hvals]
      exact rollingCol_before_first (aggOf o) w (getColD df c) i hiw
        (by rw [getColD_length_of_mem df c (hcols c hcm)]; exact hlen2)
    have hcell : (aug.rows.get ⟨i, hi⟩).2.getD j none = none := by
      rw [List.getElem?_map] at hval_i
      rw [List.getElem?_eq_getElem hi] at hval_i
      simpa using hval_i
    have hrowlen : (aug.rows.get ⟨i, hi⟩).2.length = aug.colNames.length :=
      s5 _ (List.get_mem _ _ _)
    have hnone : none ∈ (aug.rows.get ⟨i, hi⟩).2 := by
      have hjlt2 : j < (aug.rows.get ⟨i, hi⟩).2.length := by omega
      rw [List.getD_eq_getElem _ _ hjlt2] at hcell
      rw [← hcell]
      exact List.getElem_mem hjlt2
    have hincomplete : rowComplete (aug.rows.get ⟨i, hi⟩) = false := by
      unfold rowComplete
      rw [List.all_eq_false]
      exact ⟨none, hnone, by simp⟩
    intro hmem
    have : rowComplete (aug.rows.get ⟨i, hi⟩) = true := by
      have := hmem
      unfold generate_rolling_features DataFrame.dropna at this
      simp only [List.mem_filter] at this
      exact this.2
    rw [hincomplete] at this
    cases this

/-- C2 witness: one column `Close`, window 2, operation `mean` on a
four-row table. -/
theorem C2_witness :
    (generate_rolling_features dfA ["Close"] [2] ["mean"]).2.1 =
      featNames ["Close"] [2] ["mean"] ∧
    (∀ c ∈ ["Close"], ∀ w ∈ [2], ∀ o ∈ ["mean"], 1 ≤ w →
      w - 1 < dfA.rows.length →
      (getColD (addCols dfA [2] ["mean"] ["Close"]).1 (featName c o w))[w - 1]? =
        some ((allSome ((getColD dfA c).take w)).bind (aggOf o))) ∧
    (∀ c ∈ ["Close"], ∀ w ∈ [2], ∀ o ∈ ["mean"], ∀ i, i < w - 1 →
      ∀ hi : i < (addCols dfA [2] ["mean"] ["Close"]).1.rows.length,
        (addCols dfA [2] ["mean"] ["Close"]).1.rows.get ⟨i, hi⟩ ∉
          (generate_rolling_features dfA ["Close"] [2] ["mean"]).1.rows) :=
  C2_rolling_features dfA ["Close"] [2] ["mean"]
    (by decide) (by decide) (by decide) (by decide) (by decide)

/-- Unrecognized operations are skipped silently by the inner loop. -/
theorem addOps_filter (c : String) (w : ℕ) :
    ∀ (ops : List String) (df : DataFrame),
      addOps df c w (ops.filter fun o => (opAgg o).isSome) = addOps df c w ops := by
  intro ops
  induction ops with
  | nil => intro df; rfl
  | cons o os ih =>
      intro df
      cases hop : opAgg o with
      | none =>
          rw [List.filter_cons_of_neg (by simp [hop])]
          have h1 : addOpFeature df c w o = (df, []) := by
            unfold addOpFeature
            rw [hop]
          simp only [addOps, h1, ih, List.nil_append]
      | some agg =>
          rw [List.filter_cons_of_pos (by simp [hop])]
          simp only [addOps, ih]

/-- Unrecognized operations are skipped silently across the window loop. -/
theorem addWindows_filter (c : String) (ops : List String) :
    ∀ (ws : List ℕ) (df : DataFrame),
      addWindows df c (ops.filter fun o => (opAgg o).isSome) ws =
        addWindows df c ops ws := by
  intro ws
  induction ws with
  | nil => intro df; rfl
  | cons w ws ih =>
      intro df
      simp only [addWindows, addOps_filter, ih]

/-- Unrecognized operations are skipped silently across the column loop. -/
theorem addCols_filter (windows : List ℕ) (ops : List String) :
    ∀ (cols : List String) (df : DataFrame),
      addCols df windows (ops.filter fun o => (opAgg o).isSome) cols =
        addCols df windows ops cols := by
  intro cols
  induction cols with
  | nil => intro df; rfl
  | cons c cs ih =>
      intro df
      simp only [addCols]
      by_cases h : df.hasCol c
      · simp only [h, if_true, addWindows_filter, ih]
      · simp only [h, Bool.false_eq_true, if_false, ih]

/-- C10: an operation string outside {mean, std, min, max} is silently
skipped — the whole call returns exactly what it returns with the
unrecognized operations removed from the list: same table, same
feature-name list, same warnings, and the recognized operations in the same
call are processed normally (and no error is raised: the function is
total). -/
theorem C10_unrecognized_operations (df : DataFrame) (columns : List String)
    (windows : List ℕ) (operations : List String) :
    generate_rolling_features df columns windows operations =
      generate_rolling_features df columns windows
        (operations.filter fun o => (opAgg o).isSome) := by
  unfold generate_rolling_features
  rw [addCols_filter]

end StockPred
